import Mathlib

/-!
Shallow embedding of crates/gpui/src/scene.rs: the Scene primitive store,
hover resolution, and the batch merge iterator, together with proofs of the
specified properties.

Modelling conventions:
  * ScaledPixels (an f32 newtype) is modelled with Int: the scene code only
    uses ordered arithmetic on it (max, min, subtraction, comparison with 0),
    which Int models exactly.
  * The seven primitive record types (Shadow, Quad, Path, Underline,
    MonochromeSprite, PolychromeSprite, Surface) share the fields the scene
    core reads: bounds, content_mask, order, and, for the sprite kinds, a
    texture id inside the tile. Kind-specific fields are opaque to the scene
    code, so all seven are modelled by one record Prim carrying the common
    fields, an opaque payload, the sprite texture id, and the quad
    background-opacity bit.
  * FxHashMap / BTreeMap / BTreeSet / FxHashSet are modelled as association
    lists and duplicate-free lists. Iteration order of the hash containers is
    unspecified in the source, and the only places the maps are iterated
    (group-variant application) write distinct primitive indices, so the list
    order is immaterial to the stored results.
-/

namespace SceneSpec

abbrev Px := Int

structure Point where
  x : Px
  y : Px
deriving DecidableEq, Repr

structure Bounds where
  origin_x : Px
  origin_y : Px
  width : Px
  height : Px
deriving DecidableEq, Repr

/-- Modelled from the spec: rectangle intersection (the Bounds geometry type is
repository code outside src/). The origin of the intersection is the
componentwise max of the origins, the lower-right corner the componentwise min
of the lower-right corners, and the size their difference. -/
def Bounds.intersect (a b : Bounds) : Bounds :=
  let x1 := max a.origin_x b.origin_x
  let y1 := max a.origin_y b.origin_y
  let x2 := min (a.origin_x + a.width) (b.origin_x + b.width)
  let y2 := min (a.origin_y + a.height) (b.origin_y + b.height)
  ⟨x1, y1, x2 - x1, y2 - y1⟩

/-- Modelled from the spec: point containment used by the spatial index
(find_containing returns the primitives whose clipped bounds contain the
pointer). -/
def Bounds.contains (b : Bounds) (p : Point) : Bool :=
  decide (b.origin_x ≤ p.x) && decide (p.x < b.origin_x + b.width) &&
  decide (b.origin_y ≤ p.y) && decide (p.y < b.origin_y + b.height)

/-- Degeneracy test applied to the clipped bounds by every insertion: the
primitive is rejected when the clipped width or height is non-positive. -/
def Bounds.degenerate (b : Bounds) : Bool :=
  decide (b.width ≤ 0) || decide (b.height ≤ 0)

/-- Uniform model of the seven primitive records. content_mask stands for
ContentMask { bounds }; texture_id stands for tile.texture_id on the two
sprite kinds; background_opaque stands for background.is_opaque() on Quad;
payload stands for all remaining kind-specific fields, which the scene core
never inspects. -/
structure Prim where
  bounds : Bounds
  content_mask : Bounds
  order : Nat
  texture_id : Nat
  background_opaque : Bool
  payload : Nat
deriving DecidableEq, Repr

instance : Inhabited Prim :=
  ⟨⟨⟨0, 0, 0, 0⟩, ⟨0, 0, 0, 0⟩, 0, 0, false, 0⟩⟩

inductive PrimitiveKind where
  | shadow
  | quad
  | path
  | underline
  | monochromeSprite
  | polychromeSprite
  | surface
deriving DecidableEq, Repr

/-- Discriminant order of the derived Ord on PrimitiveKind (declaration
order), used as the tie-break in the batch iterator. -/
def PrimitiveKind.idx : PrimitiveKind → Nat
  | .shadow => 0
  | .quad => 1
  | .path => 2
  | .underline => 3
  | .monochromeSprite => 4
  | .polychromeSprite => 5
  | .surface => 6

structure PrimitiveIndex where
  kind : PrimitiveKind
  index : Nat
deriving DecidableEq, Repr

abbrev HoverGroup := Nat

/-- Association-list lookup, modelling map lookup. -/
def lookupKV {κ ν : Type} [DecidableEq κ] (m : List (κ × ν)) (k : κ) : Option ν :=
  (m.find? fun e => decide (e.1 = k)).map (·.2)

/-- Association-list insert with replace-on-collision, modelling map insert. -/
def insertKV {κ ν : Type} [DecidableEq κ] (m : List (κ × ν)) (k : κ) (v : ν) :
    List (κ × ν) :=
  (m.filter fun e => decide (e.1 ≠ k)) ++ [(k, v)]

/-- Duplicate-free list insert, modelling set insert. -/
def insertSet {α : Type} [DecidableEq α] (s : List α) (a : α) : List α :=
  if a ∈ s then s else s ++ [a]

/-- Modelling FxHashSet::extend. -/
def extendSet {α : Type} [DecidableEq α] (s : List α) (xs : List α) : List α :=
  xs.foldl insertSet s

structure PrimitiveMetadata where
  occludes_hover : Bool
  hover : Option Prim
deriving DecidableEq, Repr

structure PrimitiveSet where
  primitives : List Prim
  primitive_metadata : List (Nat × PrimitiveMetadata)
  hover_group_membership : List (Nat × HoverGroup)
  hover_group_variants : List ((HoverGroup × Nat) × Option Prim)
deriving DecidableEq, Repr

def PrimitiveSet.empty : PrimitiveSet := ⟨[], [], [], []⟩

def PrimitiveSet.len (s : PrimitiveSet) : Nat :=
  s.primitives.length

def PrimitiveSet.insert (s : PrimitiveSet) (primitive : Prim) (occludes_hover : Bool)
    (hover : Option Prim) (group_hovers : List (HoverGroup × Option Prim)) :
    PrimitiveSet :=
  let index := s.primitives.length
  let primitives := s.primitives ++ [primitive]
  let primitive_metadata :=
    if occludes_hover || hover.isSome then
      insertKV s.primitive_metadata index ⟨occludes_hover, hover⟩
    else
      s.primitive_metadata
  let start : List (Nat × HoverGroup) × List ((HoverGroup × Nat) × Option Prim) :=
    (s.hover_group_membership, s.hover_group_variants)
  let folded :=
    group_hovers.foldl
      (fun acc e =>
        let membership := insertSet acc.1 (index, e.1)
        match e.2 with
        | some primitive_variant =>
          (membership, insertKV acc.2 (e.1, index) (some primitive_variant))
        | none => (membership, acc.2))
      start
  ⟨primitives, primitive_metadata, folded.1, folded.2⟩

/-- PrimitiveSet::hover. If the primitive at index has metadata, its hover
variant (when present) replaces the stored primitive and is consumed, the
groups it belongs to are added to the accumulator, and the occlusion bit is
returned; otherwise nothing changes and false is returned. -/
def PrimitiveSet.hover (s : PrimitiveSet) (index : Nat)
    (hovered_groups : List HoverGroup) : Bool × PrimitiveSet × List HoverGroup :=
  match lookupKV s.primitive_metadata index with
  | some metadata =>
    let primitives :=
      match metadata.hover with
      | some hovered_primitive => s.primitives.set index hovered_primitive
      | none => s.primitives
    let groups :=
      (s.hover_group_membership.filter fun e => decide (e.1 = index)).map (·.2)
    (metadata.occludes_hover,
      { s with
        primitives,
        primitive_metadata :=
          insertKV s.primitive_metadata index { metadata with hover := none } },
      extendSet hovered_groups groups)
  | none => (false, s, hovered_groups)

/-- One group of PrimitiveSet::hover_groups: walk every (group, index) entry of
the variants map whose group component is the given group, substituting the
variant into the primitives buffer and consuming it (BTreeMap range_mut +
Option::take). The unwrap of an already-consumed variant is modelled as
returning none. -/
def PrimitiveSet.hover_groups_one (s : PrimitiveSet) (group : HoverGroup) :
    Option PrimitiveSet :=
  let entries := s.hover_group_variants.filter fun e => decide (e.1.1 = group)
  if entries.all fun e => e.2.isSome then
    some { s with
      primitives :=
        entries.foldl (fun ps e => ps.set e.1.2 (e.2.getD default)) s.primitives,
      hover_group_variants :=
        s.hover_group_variants.map fun e =>
          if e.1.1 = group then (e.1, none) else e }
  else
    none

def PrimitiveSet.hover_groups (s : PrimitiveSet) (groups : List HoverGroup) :
    Option PrimitiveSet :=
  groups.foldlM (fun acc g => acc.hover_groups_one g) s

def PrimitiveSet.clear (_s : PrimitiveSet) : PrimitiveSet :=
  PrimitiveSet.empty

structure BoundsSearchResult where
  bounds : Bounds
  order : Nat
  data : PrimitiveIndex
deriving DecidableEq, Repr

/-- Modelled from the spec: the BoundsTree spatial index is repository code
outside src/. Its contract: insert(bounds, data) records the entry and returns
a strictly increasing order (one global counter), and find_containing(point)
returns the recorded entries whose bounds contain the point. We realise the
counter as the number of entries recorded so far. -/
structure BoundsTree where
  entries : List BoundsSearchResult
deriving DecidableEq, Repr

def BoundsTree.empty : BoundsTree := ⟨[]⟩

def BoundsTree.insert (t : BoundsTree) (bounds : Bounds) (data : PrimitiveIndex) :
    Nat × BoundsTree :=
  (t.entries.length, ⟨t.entries ++ [⟨bounds, t.entries.length, data⟩]⟩)

def BoundsTree.find_containing (t : BoundsTree) (p : Point) :
    List BoundsSearchResult :=
  t.entries.filter fun e => e.bounds.contains p

/-- Scene. The hovered_bounds scratch vector is modelled as a local of finish;
the hover_group_primitives and primitives_by_group_id fields of the source are
never written by any shown operation and are omitted. -/
structure Scene where
  shadows : PrimitiveSet
  quads : PrimitiveSet
  paths : PrimitiveSet
  underlines : PrimitiveSet
  monochrome_sprites : PrimitiveSet
  polychrome_sprites : PrimitiveSet
  surfaces : PrimitiveSet
  bounds_tree : BoundsTree
  next_hover_group : HoverGroup
  hover_groups_by_name : List (String × HoverGroup)
deriving DecidableEq, Repr

def Scene.empty : Scene :=
  ⟨PrimitiveSet.empty, PrimitiveSet.empty, PrimitiveSet.empty, PrimitiveSet.empty,
   PrimitiveSet.empty, PrimitiveSet.empty, PrimitiveSet.empty, BoundsTree.empty,
   0, []⟩

def Scene.clear (_s : Scene) : Scene :=
  Scene.empty

def Scene.hover_group (s : Scene) (name : Option String) : HoverGroup × Scene :=
  match name with
  | some name =>
    match lookupKV s.hover_groups_by_name name with
    | some g => (g, s)
    | none =>
      (s.next_hover_group,
       { s with
         hover_groups_by_name :=
           insertKV s.hover_groups_by_name name s.next_hover_group,
         next_hover_group := s.next_hover_group + 1 })
  | none =>
    (s.next_hover_group, { s with next_hover_group := s.next_hover_group + 1 })

def Scene.insert_shadow (s : Scene) (shadow : Prim) (hover : Option Prim)
    (group_hover : List (HoverGroup × Option Prim)) : Option Nat × Scene :=
  let clipped_bounds := shadow.bounds.intersect shadow.content_mask
  if clipped_bounds.degenerate then
    (none, s)
  else
    let (order, bounds_tree) :=
      s.bounds_tree.insert clipped_bounds
        ⟨PrimitiveKind.shadow, s.shadows.primitives.length⟩
    -- NOTE: the source passes hover and group_hover to the store without
    -- rewriting their order fields.
    (some order,
     { s with
       bounds_tree,
       shadows := s.shadows.insert { shadow with order } false hover group_hover })

def Scene.insert_quad (s : Scene) (quad : Prim) (hover : Option Prim)
    (group_hovers : List (HoverGroup × Option Prim)) : Option Nat × Scene :=
  let clipped_bounds := quad.bounds.intersect quad.content_mask
  if clipped_bounds.degenerate then
    (none, s)
  else
    let primitive_ix : PrimitiveIndex := ⟨PrimitiveKind.quad, s.quads.primitives.length⟩
    let (order, bounds_tree) := s.bounds_tree.insert clipped_bounds primitive_ix
    let hover := hover.map fun q => { q with order }
    let group_hovers := group_hovers.map fun e => (e.1, e.2.map fun q => { q with order })
    (some order,
     { s with
       bounds_tree,
       quads := s.quads.insert { quad with order } quad.background_opaque hover group_hovers })

def Scene.insert_path (s : Scene) (path : Prim) (hover : Option Prim)
    (group_hovers : List (HoverGroup × Option Prim)) : Option Nat × Scene :=
  let clipped_bounds := path.bounds.intersect path.content_mask
  if clipped_bounds.degenerate then
    (none, s)
  else
    let (order, bounds_tree) :=
      s.bounds_tree.insert clipped_bounds
        ⟨PrimitiveKind.path, s.paths.primitives.length⟩
    -- NOTE: the source maps the hover variant with the closure
    -- |quad| Path { order, ..path }, whose binder is unused: the recorded
    -- hover payload is the base path with the order rewritten, not the
    -- supplied variant.
    let hover := hover.map fun _q => { path with order }
    let group_hovers := group_hovers.map fun e => (e.1, e.2.map fun p => { p with order })
    (some order,
     { s with
       bounds_tree,
       paths := s.paths.insert { path with order } false hover group_hovers })

def Scene.insert_underline (s : Scene) (underline : Prim) (hover : Option Prim)
    (group_hovers : List (HoverGroup × Option Prim)) : Option Nat × Scene :=
  let clipped_bounds := underline.bounds.intersect underline.content_mask
  if clipped_bounds.degenerate then
    (none, s)
  else
    let (order, bounds_tree) :=
      s.bounds_tree.insert clipped_bounds
        ⟨PrimitiveKind.underline, s.underlines.primitives.length⟩
    let hover := hover.map fun u => { u with order }
    -- NOTE: the source computes an order-rewritten group_hover iterator but
    -- then passes the original group_hovers to the store.
    let _group_hover := group_hovers.map fun e => (e.1, e.2.map fun u => { u with order })
    (some order,
     { s with
       bounds_tree,
       underlines := s.underlines.insert { underline with order } false hover group_hovers })

def Scene.insert_monochrome_sprite (s : Scene) (monochrome_sprite : Prim)
    (hover : Option Prim) (group_hovers : List (HoverGroup × Option Prim)) :
    Option Nat × Scene :=
  let clipped_bounds := monochrome_sprite.bounds.intersect monochrome_sprite.content_mask
  if clipped_bounds.degenerate then
    (none, s)
  else
    let (order, bounds_tree) :=
      s.bounds_tree.insert clipped_bounds
        ⟨PrimitiveKind.monochromeSprite, s.monochrome_sprites.primitives.length⟩
    let hover := hover.map fun sp => { sp with order }
    let group_hovers := group_hovers.map fun e => (e.1, e.2.map fun sp => { sp with order })
    (some order,
     { s with
       bounds_tree,
       monochrome_sprites :=
         s.monochrome_sprites.insert { monochrome_sprite with order } false hover group_hovers })

def Scene.insert_polychrome_sprite (s : Scene) (polychrome_sprite : Prim)
    (hover : Option Prim) (group_hovers : List (HoverGroup × Option Prim)) :
    Option Nat × Scene :=
  let clipped_bounds := polychrome_sprite.bounds.intersect polychrome_sprite.content_mask
  if clipped_bounds.degenerate then
    (none, s)
  else
    let (order, bounds_tree) :=
      s.bounds_tree.insert clipped_bounds
        ⟨PrimitiveKind.polychromeSprite, s.polychrome_sprites.primitives.length⟩
    let hover := hover.map fun sp => { sp with order }
    let group_hovers := group_hovers.map fun e => (e.1, e.2.map fun sp => { sp with order })
    (some order,
     { s with
       bounds_tree,
       polychrome_sprites :=
         s.polychrome_sprites.insert { polychrome_sprite with order } false hover group_hovers })

def Scene.insert_surface (s : Scene) (surface : Prim) (hover : Option Prim)
    (group_hovers : List (HoverGroup × Option Prim)) (occludes_hover : Bool) :
    Option Nat × Scene :=
  let clipped_bounds := surface.bounds.intersect surface.content_mask
  if clipped_bounds.degenerate then
    (none, s)
  else
    let (order, bounds_tree) :=
      s.bounds_tree.insert clipped_bounds
        ⟨PrimitiveKind.surface, s.surfaces.len⟩
    let hover := hover.map fun su => { su with order }
    let group_hovers := group_hovers.map fun e => (e.1, e.2.map fun su => { su with order })
    (some order,
     { s with
       bounds_tree,
       surfaces := s.surfaces.insert { surface with order } occludes_hover hover group_hovers })

/-- Per-kind dispatch node of the hover walk inside finish. -/
def Scene.dispatch_hover (s : Scene) (pi : PrimitiveIndex)
    (groups : List HoverGroup) : Bool × Scene × List HoverGroup :=
  match pi.kind with
  | .shadow =>
    let r := s.shadows.hover pi.index groups
    (r.1, { s with shadows := r.2.1 }, r.2.2)
  | .quad =>
    let r := s.quads.hover pi.index groups
    (r.1, { s with quads := r.2.1 }, r.2.2)
  | .path =>
    let r := s.paths.hover pi.index groups
    (r.1, { s with paths := r.2.1 }, r.2.2)
  | .underline =>
    let r := s.underlines.hover pi.index groups
    (r.1, { s with underlines := r.2.1 }, r.2.2)
  | .monochromeSprite =>
    let r := s.monochrome_sprites.hover pi.index groups
    (r.1, { s with monochrome_sprites := r.2.1 }, r.2.2)
  | .polychromeSprite =>
    let r := s.polychrome_sprites.hover pi.index groups
    (r.1, { s with polychrome_sprites := r.2.1 }, r.2.2)
  | .surface =>
    let r := s.surfaces.hover pi.index groups
    (r.1, { s with surfaces := r.2.1 }, r.2.2)

/-- The hover walk of finish: visit the hits in the given sequence, and stop
right after the first hit whose hover call reports occlusion. -/
def Scene.hover_walk : Scene → List PrimitiveIndex → List HoverGroup →
    Scene × List HoverGroup
  | s, [], groups => (s, groups)
  | s, pi :: rest, groups =>
    let r := s.dispatch_hover pi groups
    if r.1 then (r.2.1, r.2.2) else Scene.hover_walk r.2.1 rest r.2.2

/-- Sorting a primitive buffer ascending by order (sort_unstable_by_key). -/
def sort_by_order (l : List Prim) : List Prim :=
  List.insertionSort (fun a b => a.order ≤ b.order) l

/-- Sorting the hover hits descending by order (sort_unstable_by_key with a
Reverse key). -/
def sort_desc_by_order (l : List BoundsSearchResult) : List BoundsSearchResult :=
  List.insertionSort (fun a b => b.order ≤ a.order) l

/-- Scene::finish. The result is none exactly when the group-variant
application pass would panic on an unwrap of an already-consumed variant. -/
def Scene.finish (s : Scene) (mouse_position : Point) : Option Scene := do
  let hovered_bounds := s.bounds_tree.find_containing mouse_position
  let hovered_bounds := sort_desc_by_order hovered_bounds
  let walked := s.hover_walk (hovered_bounds.map (·.data)) []
  let s1 := walked.1
  let hovered_groups := walked.2
  let shadows ← s1.shadows.hover_groups hovered_groups
  let quads ← s1.quads.hover_groups hovered_groups
  let paths ← s1.paths.hover_groups hovered_groups
  let underlines ← s1.underlines.hover_groups hovered_groups
  let monochrome_sprites ← s1.monochrome_sprites.hover_groups hovered_groups
  let polychrome_sprites ← s1.polychrome_sprites.hover_groups hovered_groups
  let surfaces ← s1.surfaces.hover_groups hovered_groups
  some { s1 with
    shadows := { shadows with primitives := sort_by_order shadows.primitives },
    quads := { quads with primitives := sort_by_order quads.primitives },
    paths := { paths with primitives := sort_by_order paths.primitives },
    underlines := { underlines with primitives := sort_by_order underlines.primitives },
    monochrome_sprites :=
      { monochrome_sprites with primitives := sort_by_order monochrome_sprites.primitives },
    polychrome_sprites :=
      { polychrome_sprites with primitives := sort_by_order polychrome_sprites.primitives },
    surfaces := { surfaces with primitives := sort_by_order surfaces.primitives } }

/-! Batch iterator (BatchIterator::next and Scene::batches). The iterator
state is the not-yet-consumed suffix of each kind's primitive buffer; each
emitted batch is the run of primitives the source iterator consumes, which is
exactly the slice it returns. -/

def U32_MAX : Nat := 4294967295

structure BatchState where
  shadows : List Prim
  quads : List Prim
  paths : List Prim
  underlines : List Prim
  monochrome_sprites : List Prim
  polychrome_sprites : List Prim
  surfaces : List Prim
deriving DecidableEq, Repr

def BatchState.get (s : BatchState) : PrimitiveKind → List Prim
  | .shadow => s.shadows
  | .quad => s.quads
  | .path => s.paths
  | .underline => s.underlines
  | .monochromeSprite => s.monochrome_sprites
  | .polychromeSprite => s.polychrome_sprites
  | .surface => s.surfaces

def BatchState.setK (s : BatchState) : PrimitiveKind → List Prim → BatchState
  | .shadow, l => { s with shadows := l }
  | .quad, l => { s with quads := l }
  | .path, l => { s with paths := l }
  | .underline, l => { s with underlines := l }
  | .monochromeSprite, l => { s with monochrome_sprites := l }
  | .polychromeSprite, l => { s with polychrome_sprites := l }
  | .surface, l => { s with surfaces := l }

def PrimitiveKind.isSprite : PrimitiveKind → Bool
  | .monochromeSprite => true
  | .polychromeSprite => true
  | _ => false

def allKinds : List PrimitiveKind :=
  [.shadow, .quad, .path, .underline, .monochromeSprite, .polychromeSprite, .surface]

/-- Lexicographic strict order on (u32 order, kind discriminant) pairs, the
derived Rust Ord on (u32, PrimitiveKind). -/
def lexLt (a b : Nat × Nat) : Prop :=
  a.1 < b.1 ∨ (a.1 = b.1 ∧ a.2 < b.2)

instance : DecidableRel lexLt := fun a b => by
  unfold lexLt; infer_instance

/-- Sort key of one entry of the orders_and_kinds array:
(order.unwrap_or(u32::MAX), kind). -/
def pairKey (x : Option Nat × PrimitiveKind) : Nat × Nat :=
  (x.1.getD U32_MAX, x.2.idx)

def pairLe (a b : Option Nat × PrimitiveKind) : Prop :=
  lexLt (pairKey a) (pairKey b) ∨ pairKey a = pairKey b

instance : DecidableRel pairLe := fun a b => by
  unfold pairLe; infer_instance

/-- The orders_and_kinds array: the next unconsumed order of each kind, in the
declaration order of the source array literal. -/
def peeks (s : BatchState) : List (Option Nat × PrimitiveKind) :=
  allKinds.map fun k => ((s.get k).head?.map Prim.order, k)

structure Batch where
  kind : PrimitiveKind
  texture_id : Nat
  prims : List Prim
deriving DecidableEq, Repr

/-- BatchIterator::next: sort the seven peeks by (order or u32::MAX, kind),
stop if the smallest is exhausted, otherwise emit from the selected kind the
leading run whose (order, kind) stays below the second-smallest peek and, for
the sprite kinds, whose texture id matches the first primitive of the run. -/
def batchNext (s : BatchState) : Option (Batch × BatchState) :=
  match List.insertionSort pairLe (peeks s) with
  | (some _, batch_kind) :: second :: _ =>
    let max_order_and_kind : Nat × Nat := (second.1.getD U32_MAX, second.2.idx)
    match s.get batch_kind with
    | [] => none
    | p :: rest =>
      let keep : Prim → Bool := fun q =>
        decide (lexLt (q.order, batch_kind.idx) max_order_and_kind) &&
        (!batch_kind.isSprite || q.texture_id == p.texture_id)
      some (⟨batch_kind, p.texture_id, p :: rest.takeWhile keep⟩,
            s.setK batch_kind (rest.dropWhile keep))
  | _ => none

def BatchState.totalLen (s : BatchState) : Nat :=
  s.shadows.length + s.quads.length + s.paths.length + s.underlines.length +
  s.monochrome_sprites.length + s.polychrome_sprites.length + s.surfaces.length

/-- Driving the iterator to exhaustion; the fuel is the number of stored
primitives, and each step of the source iterator consumes at least one. -/
def batchesAux : Nat → BatchState → List Batch
  | 0, _ => []
  | fuel + 1, s =>
    match batchNext s with
    | none => []
    | some (b, s1) => b :: batchesAux fuel s1

def Scene.batchState (s : Scene) : BatchState :=
  ⟨s.shadows.primitives, s.quads.primitives, s.paths.primitives,
   s.underlines.primitives, s.monochrome_sprites.primitives,
   s.polychrome_sprites.primitives, s.surfaces.primitives⟩

def Scene.batches (s : Scene) : List Batch :=
  batchesAux s.batchState.totalLen s.batchState

/-- Orders of a primitive list. -/
def ordersOf (l : List Prim) : List Nat :=
  l.map Prim.order

/-- All orders stored in the seven buffers, in kind order. -/
def BatchState.allOrders (s : BatchState) : List Nat :=
  ordersOf s.shadows ++ ordersOf s.quads ++ ordersOf s.paths ++
  ordersOf s.underlines ++ ordersOf s.monochrome_sprites ++
  ordersOf s.polychrome_sprites ++ ordersOf s.surfaces

/-- Orders of the primitives yielded by a batch sequence, in traversal order. -/
def batchOrders (bs : List Batch) : List Nat :=
  (bs.map fun b => ordersOf b.prims).flatten

/-! Insertion-call sequences, used to state the order-monotonicity and
no-panic claims over every scene reachable by insertions. -/

inductive InsertCmd where
  | shadow (p : Prim) (hover : Option Prim) (groups : List (HoverGroup × Option Prim))
  | quad (p : Prim) (hover : Option Prim) (groups : List (HoverGroup × Option Prim))
  | path (p : Prim) (hover : Option Prim) (groups : List (HoverGroup × Option Prim))
  | underline (p : Prim) (hover : Option Prim) (groups : List (HoverGroup × Option Prim))
  | monochromeSprite (p : Prim) (hover : Option Prim) (groups : List (HoverGroup × Option Prim))
  | polychromeSprite (p : Prim) (hover : Option Prim) (groups : List (HoverGroup × Option Prim))
  | surface (p : Prim) (hover : Option Prim) (groups : List (HoverGroup × Option Prim))
      (occludes_hover : Bool)

def runCmd (s : Scene) : InsertCmd → Option Nat × Scene
  | .shadow p hover groups => s.insert_shadow p hover groups
  | .quad p hover groups => s.insert_quad p hover groups
  | .path p hover groups => s.insert_path p hover groups
  | .underline p hover groups => s.insert_underline p hover groups
  | .monochromeSprite p hover groups => s.insert_monochrome_sprite p hover groups
  | .polychromeSprite p hover groups => s.insert_polychrome_sprite p hover groups
  | .surface p hover groups occ => s.insert_surface p hover groups occ

/-- Run a sequence of insertion calls, collecting the successfully returned
orders in call sequence. -/
def runCmds : Scene → List InsertCmd → List Nat × Scene
  | s, [] => ([], s)
  | s, c :: cs =>
    let r := runCmd s c
    let rest := runCmds r.2 cs
    (r.1.toList ++ rest.1, rest.2)

/-! Helper lemmas about the association-list map model. -/

theorem find?_filter_ne {κ ν : Type} [DecidableEq κ] (m : List (κ × ν)) (k : κ) :
    (m.filter fun e => decide (e.1 ≠ k)).find? (fun e => decide (e.1 = k)) = none := by
  induction m with
  | nil => rfl
  | cons e m ih =>
    by_cases h : e.1 = k <;> simp [List.filter_cons, h, List.find?_cons, ih]

theorem lookupKV_insertKV_self {κ ν : Type} [DecidableEq κ] (m : List (κ × ν))
    (k : κ) (v : ν) : lookupKV (insertKV m k v) k = some v := by
  unfold lookupKV insertKV
  rw [List.find?_append, find?_filter_ne]
  simp

/-- Wellformedness of a primitive store: every metadata key addresses an
existing primitive. Every store reachable through the Scene operations
satisfies this, because metadata is only recorded at the freshly appended
index. -/
def PrimitiveSet.wf (s : PrimitiveSet) : Prop :=
  ∀ e ∈ s.primitive_metadata, e.1 < s.primitives.length

instance (s : PrimitiveSet) : Decidable s.wf := by
  unfold PrimitiveSet.wf; infer_instance

theorem lookup_metadata_len_eq_none (s : PrimitiveSet) (h : s.wf) :
    lookupKV s.primitive_metadata s.primitives.length = none := by
  unfold lookupKV
  rw [List.find?_eq_none.mpr]
  · rfl
  · intro e he
    have := h e he
    simp only [decide_eq_true_eq]
    omega

/-- What hover reports at a freshly inserted index is exactly the
occludes_hover bit the store insert was given. -/
theorem hover_of_insert (s : PrimitiveSet) (h : s.wf) (p : Prim) (occ : Bool)
    (hov : Option Prim) (gh : List (HoverGroup × Option Prim)) :
    ((s.insert p occ hov gh).hover s.primitives.length []).1 = occ := by
  unfold PrimitiveSet.insert PrimitiveSet.hover
  by_cases hc : (occ || hov.isSome) = true
  · simp only [hc, if_true, lookupKV_insertKV_self]
  · have hocc : occ = false := by cases occ <;> simp_all
    have hs : hov.isSome = false := by cases hov <;> simp_all
    simp only [hocc, hs, Bool.or_self, Bool.false_eq_true, if_false,
      lookup_metadata_len_eq_none s h]

/-- C5: for every insertion of every kind, a degenerate clipped rectangle
(non-positive width or height after intersecting the bounds with the content
mask) makes the operation return no order and leave the entire scene state
unchanged, so the primitive is never hit-tested and never batched; a
non-degenerate clipped rectangle makes the operation return the assigned
order. -/
theorem insert_rejects_degenerate_clips (s : Scene) (p : Prim) (hov : Option Prim)
    (gh : List (HoverGroup × Option Prim)) (occ : Bool) :
    ((p.bounds.intersect p.content_mask).degenerate = true →
      s.insert_shadow p hov gh = (none, s) ∧
      s.insert_quad p hov gh = (none, s) ∧
      s.insert_path p hov gh = (none, s) ∧
      s.insert_underline p hov gh = (none, s) ∧
      s.insert_monochrome_sprite p hov gh = (none, s) ∧
      s.insert_polychrome_sprite p hov gh = (none, s) ∧
      s.insert_surface p hov gh occ = (none, s)) ∧
    ((p.bounds.intersect p.content_mask).degenerate = false →
      (s.insert_shadow p hov gh).1 = some s.bounds_tree.entries.length ∧
      (s.insert_quad p hov gh).1 = some s.bounds_tree.entries.length ∧
      (s.insert_path p hov gh).1 = some s.bounds_tree.entries.length ∧
      (s.insert_underline p hov gh).1 = some s.bounds_tree.entries.length ∧
      (s.insert_monochrome_sprite p hov gh).1 = some s.bounds_tree.entries.length ∧
      (s.insert_polychrome_sprite p hov gh).1 = some s.bounds_tree.entries.length ∧
      (s.insert_surface p hov gh occ).1 = some s.bounds_tree.entries.length) := by
  constructor <;> intro h <;>
    simp [Scene.insert_shadow, Scene.insert_quad, Scene.insert_path,
      Scene.insert_underline, Scene.insert_monochrome_sprite,
      Scene.insert_polychrome_sprite, Scene.insert_surface, BoundsTree.insert, h]

/-- Witness for C5: a 0-wide clipped primitive is rejected without any state
change, and a 10-by-10 one is assigned order 0 in the empty scene. -/
theorem insert_rejects_degenerate_clips_witness :
    Scene.empty.insert_shadow ⟨⟨0, 0, 0, 5⟩, ⟨0, 0, 10, 10⟩, 0, 0, false, 0⟩ none [] =
      (none, Scene.empty) ∧
    (Scene.empty.insert_quad ⟨⟨0, 0, 10, 10⟩, ⟨0, 0, 10, 10⟩, 0, 0, false, 0⟩ none []).1 =
      some 0 :=
  ⟨((insert_rejects_degenerate_clips Scene.empty
      ⟨⟨0, 0, 0, 5⟩, ⟨0, 0, 10, 10⟩, 0, 0, false, 0⟩ none [] false).1 (by decide)).1,
   (((insert_rejects_degenerate_clips Scene.empty
      ⟨⟨0, 0, 10, 10⟩, ⟨0, 0, 10, 10⟩, 0, 0, false, 0⟩ none [] false).2 (by decide)).2.1)⟩

/-- C6 counterexample: a shadow inserted WITH a hover variant still reports
occludes_hover = false from its hover call, refuting the claim that for
non-surface kinds a primitive occludes hover iff a hover variant was
supplied at insertion. -/
theorem occlusion_policy_counterexample :
    ((Scene.empty.insert_shadow
        ⟨⟨0, 0, 10, 10⟩, ⟨0, 0, 100, 100⟩, 0, 0, false, 1⟩
        (some ⟨⟨0, 0, 10, 10⟩, ⟨0, 0, 100, 100⟩, 0, 0, false, 2⟩)
        []).2.shadows.hover 0 []).1 = false := by decide

/-- C6 (amended): whether a freshly inserted primitive occludes hover is, for
the surface kind, exactly the caller-supplied flag; for the quad kind the
opacity of the quad's background; and for every other kind always false,
whether or not a hover variant was supplied. -/
theorem occlusion_policy (s : Scene) (p : Prim) (hov : Option Prim)
    (gh : List (HoverGroup × Option Prim)) (occ : Bool)
    (hnd : (p.bounds.intersect p.content_mask).degenerate = false)
    (hsh : s.shadows.wf) (hq : s.quads.wf) (hpa : s.paths.wf)
    (hu : s.underlines.wf) (hm : s.monochrome_sprites.wf)
    (hpo : s.polychrome_sprites.wf) (hsu : s.surfaces.wf) :
    ((s.insert_surface p hov gh occ).2.surfaces.hover
        s.surfaces.primitives.length []).1 = occ ∧
    ((s.insert_quad p hov gh).2.quads.hover
        s.quads.primitives.length []).1 = p.background_opaque ∧
    ((s.insert_shadow p hov gh).2.shadows.hover
        s.shadows.primitives.length []).1 = false ∧
    ((s.insert_path p hov gh).2.paths.hover
        s.paths.primitives.length []).1 = false ∧
    ((s.insert_underline p hov gh).2.underlines.hover
        s.underlines.primitives.length []).1 = false ∧
    ((s.insert_monochrome_sprite p hov gh).2.monochrome_sprites.hover
        s.monochrome_sprites.primitives.length []).1 = false ∧
    ((s.insert_polychrome_sprite p hov gh).2.polychrome_sprites.hover
        s.polychrome_sprites.primitives.length []).1 = false := by
  refine ⟨?_, ?_, ?_, ?_, ?_, ?_, ?_⟩
  · simp only [Scene.insert_surface, hnd, Bool.false_eq_true, if_false,
      BoundsTree.insert]
    exact hover_of_insert s.surfaces hsu _ _ _ _
  · simp only [Scene.insert_quad, hnd, Bool.false_eq_true, if_false,
      BoundsTree.insert]
    exact hover_of_insert s.quads hq _ _ _ _
  · simp only [Scene.insert_shadow, hnd, Bool.false_eq_true, if_false,
      BoundsTree.insert]
    exact hover_of_insert s.shadows hsh _ _ _ _
  · simp only [Scene.insert_path, hnd, Bool.false_eq_true, if_false,
      BoundsTree.insert]
    exact hover_of_insert s.paths hpa _ _ _ _
  · simp only [Scene.insert_underline, hnd, Bool.false_eq_true, if_false,
      BoundsTree.insert]
    exact hover_of_insert s.underlines hu _ _ _ _
  · simp only [Scene.insert_monochrome_sprite, hnd, Bool.false_eq_true, if_false,
      BoundsTree.insert]
    exact hover_of_insert s.monochrome_sprites hm _ _ _ _
  · simp only [Scene.insert_polychrome_sprite, hnd, Bool.false_eq_true, if_false,
      BoundsTree.insert]
    exact hover_of_insert s.polychrome_sprites hpo _ _ _ _

/-- Witness for the amended C6 on a concrete scene: a surface with an explicit
occlusion flag occludes, and a shadow with a hover variant does not. -/
theorem occlusion_policy_witness :
    ((Scene.empty.insert_surface ⟨⟨0, 0, 10, 10⟩, ⟨0, 0, 100, 100⟩, 0, 0, false, 1⟩
        (some ⟨⟨0, 0, 10, 10⟩, ⟨0, 0, 100, 100⟩, 0, 0, false, 2⟩) [] true).2.surfaces.hover
        0 []).1 = true ∧
    ((Scene.empty.insert_shadow ⟨⟨0, 0, 10, 10⟩, ⟨0, 0, 100, 100⟩, 0, 0, false, 1⟩
        (some ⟨⟨0, 0, 10, 10⟩, ⟨0, 0, 100, 100⟩, 0, 0, false, 2⟩) []).2.shadows.hover
        0 []).1 = false := by
  have h := occlusion_policy Scene.empty
    ⟨⟨0, 0, 10, 10⟩, ⟨0, 0, 100, 100⟩, 0, 0, false, 1⟩
    (some ⟨⟨0, 0, 10, 10⟩, ⟨0, 0, 100, 100⟩, 0, 0, false, 2⟩) [] true
    (by decide) (by decide) (by decide) (by decide) (by decide) (by decide)
    (by decide) (by decide)
  exact ⟨h.1, h.2.2.1⟩

/-- C4 (code bug): at a concrete insertion, insert_path records the BASE path
with the order rewritten as the hover payload, discarding the supplied hover
variant (its payload 2 is lost, the stored hover payload is 1); and
insert_shadow records the supplied hover variant without rewriting its order
field (the stale order 99 survives instead of the assigned order 0). -/
theorem variant_order_rewrite_bug :
    lookupKV ((Scene.empty.insert_path
        ⟨⟨0, 0, 10, 10⟩, ⟨0, 0, 100, 100⟩, 99, 0, false, 1⟩
        (some ⟨⟨0, 0, 10, 10⟩, ⟨0, 0, 100, 100⟩, 99, 0, false, 2⟩)
        []).2.paths.primitive_metadata) 0 =
      some ⟨false, some ⟨⟨0, 0, 10, 10⟩, ⟨0, 0, 100, 100⟩, 0, 0, false, 1⟩⟩ ∧
    lookupKV ((Scene.empty.insert_shadow
        ⟨⟨0, 0, 10, 10⟩, ⟨0, 0, 100, 100⟩, 99, 0, false, 1⟩
        (some ⟨⟨0, 0, 10, 10⟩, ⟨0, 0, 100, 100⟩, 99, 0, false, 2⟩)
        []).2.shadows.primitive_metadata) 0 =
      some ⟨false, some ⟨⟨0, 0, 10, 10⟩, ⟨0, 0, 100, 100⟩, 99, 0, false, 2⟩⟩ := by
  decide

/-! Order monotonicity across insertion calls. The strictly increasing counter
is the contract of the spatial index (modelled from the spec); the scene part
proved here is that every successful insertion consults it exactly once and
returns its value, and that a rejected insertion leaves it untouched. -/

theorem runCmd_step (s : Scene) (c : InsertCmd) :
    ((runCmd s c).1 = none ∧ (runCmd s c).2 = s) ∨
    ((runCmd s c).1 = some s.bounds_tree.entries.length ∧
      (runCmd s c).2.bounds_tree.entries.length = s.bounds_tree.entries.length + 1) := by
  cases c <;>
    simp only [runCmd, Scene.insert_shadow, Scene.insert_quad, Scene.insert_path,
      Scene.insert_underline, Scene.insert_monochrome_sprite,
      Scene.insert_polychrome_sprite, Scene.insert_surface, BoundsTree.insert] <;>
    split <;> simp

theorem runCmds_le (s : Scene) (cmds : List InsertCmd) :
    ∀ o ∈ (runCmds s cmds).1, s.bounds_tree.entries.length ≤ o := by
  induction cmds generalizing s with
  | nil => simp [runCmds]
  | cons c cs ih =>
    intro o ho
    simp only [runCmds, List.mem_append] at ho
    rcases runCmd_step s c with ⟨h1, h2⟩ | ⟨h1, h2⟩ <;>
      rcases ho with ho | ho
    · simp [h1] at ho
    · have := ih (runCmd s c).2 o ho
      rw [h2] at this
      exact this
    · simp [h1] at ho
      omega
    · have := ih (runCmd s c).2 o ho
      omega

/-- C7: for every sequence of insertion calls on one scene, across all seven
kinds, the orders returned by the successful insertions form a strictly
increasing (hence pairwise distinct) sequence in call order. -/
theorem orders_strictly_increasing (s : Scene) (cmds : List InsertCmd) :
    List.Pairwise (· < ·) (runCmds s cmds).1 := by
  induction cmds generalizing s with
  | nil => simp [runCmds]
  | cons c cs ih =>
    simp only [runCmds]
    rcases runCmd_step s c with ⟨h1, h2⟩ | ⟨h1, h2⟩
    · rw [h1, h2]
      simpa using ih s
    · rw [h1]
      refine List.Pairwise.cons ?_ (ih _)
      intro o ho
      have := runCmds_le (runCmd s c).2 cs o ho
      omega

/-! No-panic analysis of the group-variant application pass in finish. -/

theorem nodup_insertSet {α : Type} [DecidableEq α] {s : List α} (h : s.Nodup)
    (a : α) : (insertSet s a).Nodup := by
  unfold insertSet
  split
  · exact h
  · next ha => simp [List.nodup_append, h, ha]

theorem nodup_extendSet {α : Type} [DecidableEq α] {s : List α} (h : s.Nodup)
    (xs : List α) : (extendSet s xs).Nodup := by
  unfold extendSet
  induction xs generalizing s with
  | nil => exact h
  | cons x xs ih => exact ih (nodup_insertSet h x)

theorem mem_insertKV {κ ν : Type} [DecidableEq κ] {m : List (κ × ν)} {k : κ}
    {v : ν} {e : κ × ν} (he : e ∈ insertKV m k v) : e ∈ m ∨ e = (k, v) := by
  unfold insertKV at he
  rcases List.mem_append.mp he with h | h
  · exact Or.inl (List.mem_of_mem_filter h)
  · simp only [List.mem_singleton] at h
    exact Or.inr h

/-- Every group-variant entry recorded in the store holds a still-present
payload. This holds for every store reachable by insertions, because insert
only records entries with a some payload and nothing before finish consumes
them. -/
def AllSomeVariants (s : PrimitiveSet) : Prop :=
  ∀ e ∈ s.hover_group_variants, e.2.isSome

theorem allSomeVariants_insert (s : PrimitiveSet) (h : AllSomeVariants s)
    (p : Prim) (occ : Bool) (hov : Option Prim)
    (gh : List (HoverGroup × Option Prim)) :
    AllSomeVariants (s.insert p occ hov gh) := by
  unfold AllSomeVariants PrimitiveSet.insert
  suffices hgen : ∀ (gh : List (HoverGroup × Option Prim))
      (acc : List (Nat × HoverGroup) × List ((HoverGroup × Nat) × Option Prim)),
      (∀ e ∈ acc.2, e.2.isSome) →
      ∀ e ∈ (gh.foldl (fun acc e =>
          let membership := insertSet acc.1 (s.primitives.length, e.1)
          match e.2 with
          | some primitive_variant =>
            (membership, insertKV acc.2 (e.1, s.primitives.length) (some primitive_variant))
          | none => (membership, acc.2)) acc).2, e.2.isSome by
    exact hgen gh _ h
  intro gh
  induction gh with
  | nil => intro acc hacc; exact hacc
  | cons x xs ih =>
    intro acc hacc
    simp only [List.foldl_cons]
    apply ih
    cases hx : x.2 with
    | none => simpa [hx] using hacc
    | some v =>
      simp only [hx]
      intro e he
      rcases mem_insertKV he with h' | h'
      · exact hacc e h'
      · simp [h']

theorem hover_variants_eq (s : PrimitiveSet) (idx : Nat) (gs : List HoverGroup) :
    ((s.hover idx gs).2.1).hover_group_variants = s.hover_group_variants := by
  unfold PrimitiveSet.hover
  split <;> rfl

theorem hover_groups_out_nodup (s : PrimitiveSet) (idx : Nat)
    {gs : List HoverGroup} (h : gs.Nodup) : ((s.hover idx gs).2.2).Nodup := by
  unfold PrimitiveSet.hover
  split
  · exact nodup_extendSet h _
  · exact h

def Scene.allSomeVariants (s : Scene) : Prop :=
  AllSomeVariants s.shadows ∧ AllSomeVariants s.quads ∧ AllSomeVariants s.paths ∧
  AllSomeVariants s.underlines ∧ AllSomeVariants s.monochrome_sprites ∧
  AllSomeVariants s.polychrome_sprites ∧ AllSomeVariants s.surfaces

theorem dispatch_hover_allSome {s : Scene} (h : s.allSomeVariants)
    (pi : PrimitiveIndex) (gs : List HoverGroup) :
    ((s.dispatch_hover pi gs).2.1).allSomeVariants := by
  obtain ⟨h1, h2, h3, h4, h5, h6, h7⟩ := h
  unfold Scene.dispatch_hover Scene.allSomeVariants
  cases pi.kind <;>
    simp only [] <;>
    exact ⟨by first | exact h1 | (unfold AllSomeVariants; rw [hover_variants_eq]; exact h1),
           by first | exact h2 | (unfold AllSomeVariants; rw [hover_variants_eq]; exact h2),
           by first | exact h3 | (unfold AllSomeVariants; rw [hover_variants_eq]; exact h3),
           by first | exact h4 | (unfold AllSomeVariants; rw [hover_variants_eq]; exact h4),
           by first | exact h5 | (unfold AllSomeVariants; rw [hover_variants_eq]; exact h5),
           by first | exact h6 | (unfold AllSomeVariants; rw [hover_variants_eq]; exact h6),
           by first | exact h7 | (unfold AllSomeVariants; rw [hover_variants_eq]; exact h7)⟩

theorem dispatch_hover_nodup (s : Scene) (pi : PrimitiveIndex)
    {gs : List HoverGroup} (h : gs.Nodup) :
    ((s.dispatch_hover pi gs).2.2).Nodup := by
  unfold Scene.dispatch_hover
  cases pi.kind <;> exact hover_groups_out_nodup _ _ h

theorem hover_walk_allSome {s : Scene} (h : s.allSomeVariants)
    (hits : List PrimitiveIndex) {gs : List HoverGroup} (hgs : gs.Nodup) :
    ((s.hover_walk hits gs).1).allSomeVariants ∧
    ((s.hover_walk hits gs).2).Nodup := by
  induction hits generalizing s gs with
  | nil => exact ⟨h, hgs⟩
  | cons pi rest ih =>
    unfold Scene.hover_walk
    simp only []
    split
    · exact ⟨dispatch_hover_allSome h pi gs, dispatch_hover_nodup s pi hgs⟩
    · exact ih (dispatch_hover_allSome h pi gs) (dispatch_hover_nodup s pi hgs)

theorem hover_groups_isSome (groups : List HoverGroup) (s : PrimitiveSet)
    (hnd : groups.Nodup)
    (hs : ∀ e ∈ s.hover_group_variants, e.1.1 ∈ groups → e.2.isSome) :
    (s.hover_groups groups).isSome := by
  unfold PrimitiveSet.hover_groups
  induction groups generalizing s with
  | nil => rfl
  | cons g gs ih =>
    rw [List.foldlM_cons]
    have hall : (s.hover_group_variants.filter fun e => decide (e.1.1 = g)).all
        (fun e => e.2.isSome) = true := by
      rw [List.all_eq_true]
      intro e he
      have hmem := List.mem_of_mem_filter he
      have hkey := List.of_mem_filter he
      simp only [decide_eq_true_eq] at hkey
      exact hs e hmem (by simp [hkey])
    unfold PrimitiveSet.hover_groups_one
    simp only [hall, if_true, Option.some_bind]
    apply ih
    · exact hnd.of_cons
    · intro e he hg
      simp only [List.mem_map] at he
      obtain ⟨e0, he0, heq⟩ := he
      by_cases hk : e0.1.1 = g
      · rw [← heq, if_pos hk] at hg
        have hgin : g ∈ gs := by simpa [hk] using hg
        exact absurd hgin (List.nodup_cons.mp hnd).1
      · rw [← heq, if_neg hk] at hg ⊢
        exact hs e0 he0 (List.mem_cons_of_mem g hg)

theorem finish_isSome_of_allSome (s : Scene) (h : s.allSomeVariants) (pt : Point) :
    (s.finish pt).isSome := by
  obtain ⟨hw, hn⟩ := hover_walk_allSome h
    ((sort_desc_by_order (s.bounds_tree.find_containing pt)).map (·.data))
    (List.nodup_nil)
  obtain ⟨h1, h2, h3, h4, h5, h6, h7⟩ := hw
  obtain ⟨x1, e1⟩ := Option.isSome_iff_exists.mp
    (hover_groups_isSome _ _ hn (fun e he _ => h1 e he))
  obtain ⟨x2, e2⟩ := Option.isSome_iff_exists.mp
    (hover_groups_isSome _ _ hn (fun e he _ => h2 e he))
  obtain ⟨x3, e3⟩ := Option.isSome_iff_exists.mp
    (hover_groups_isSome _ _ hn (fun e he _ => h3 e he))
  obtain ⟨x4, e4⟩ := Option.isSome_iff_exists.mp
    (hover_groups_isSome _ _ hn (fun e he _ => h4 e he))
  obtain ⟨x5, e5⟩ := Option.isSome_iff_exists.mp
    (hover_groups_isSome _ _ hn (fun e he _ => h5 e he))
  obtain ⟨x6, e6⟩ := Option.isSome_iff_exists.mp
    (hover_groups_isSome _ _ hn (fun e he _ => h6 e he))
  obtain ⟨x7, e7⟩ := Option.isSome_iff_exists.mp
    (hover_groups_isSome _ _ hn (fun e he _ => h7 e he))
  unfold Scene.finish
  simp only [bind, e1, e2, e3, e4, e5, e6, e7, Option.some_bind]
  rfl

theorem runCmd_allSome {s : Scene} (h : s.allSomeVariants) (c : InsertCmd) :
    ((runCmd s c).2).allSomeVariants := by
  obtain ⟨h1, h2, h3, h4, h5, h6, h7⟩ := h
  cases c <;>
    simp only [runCmd, Scene.insert_shadow, Scene.insert_quad, Scene.insert_path,
      Scene.insert_underline, Scene.insert_monochrome_sprite,
      Scene.insert_polychrome_sprite, Scene.insert_surface] <;>
    split <;>
    exact ⟨by first | exact h1 | exact allSomeVariants_insert _ h1 _ _ _ _,
           by first | exact h2 | exact allSomeVariants_insert _ h2 _ _ _ _,
           by first | exact h3 | exact allSomeVariants_insert _ h3 _ _ _ _,
           by first | exact h4 | exact allSomeVariants_insert _ h4 _ _ _ _,
           by first | exact h5 | exact allSomeVariants_insert _ h5 _ _ _ _,
           by first | exact h6 | exact allSomeVariants_insert _ h6 _ _ _ _,
           by first | exact h7 | exact allSomeVariants_insert _ h7 _ _ _ _⟩

theorem runCmds_allSome (cmds : List InsertCmd) {s : Scene}
    (h : s.allSomeVariants) : ((runCmds s cmds).2).allSomeVariants := by
  induction cmds generalizing s with
  | nil => exact h
  | cons c cs ih => exact ih (runCmd_allSome h c)

/-- C10: on any scene built by a sequence of insertions after a clear (so with
finish invoked at most once), the group-variant application pass inside finish
never unwraps an absent variant: finish always returns a result instead of
hitting the modelled panic branch. -/
theorem finish_never_panics (cmds : List InsertCmd) (pt : Point) :
    (((runCmds Scene.empty cmds).2).finish pt).isSome := by
  apply finish_isSome_of_allSome
  apply runCmds_allSome
  exact ⟨fun e he => absurd he (List.not_mem_nil e),
         fun e he => absurd he (List.not_mem_nil e),
         fun e he => absurd he (List.not_mem_nil e),
         fun e he => absurd he (List.not_mem_nil e),
         fun e he => absurd he (List.not_mem_nil e),
         fun e he => absurd he (List.not_mem_nil e),
         fun e he => absurd he (List.not_mem_nil e)⟩

/-! Facts about the batch iterator. -/

theorem pairLe_total : ∀ a b : Option Nat × PrimitiveKind, pairLe a b ∨ pairLe b a := by
  intro a b
  simp only [pairLe, lexLt, Prod.ext_iff]
  omega

theorem pairLe_trans : ∀ a b c : Option Nat × PrimitiveKind,
    pairLe a b → pairLe b c → pairLe a c := by
  intro a b c
  simp only [pairLe, lexLt, Prod.ext_iff]
  omega

instance : IsTotal (Option Nat × PrimitiveKind) pairLe := ⟨pairLe_total⟩

instance : IsTrans (Option Nat × PrimitiveKind) pairLe := ⟨pairLe_trans⟩

theorem get_setK_self (s : BatchState) (k : PrimitiveKind) (l : List Prim) :
    (s.setK k l).get k = l := by
  cases k <;> rfl

theorem get_setK_ne (s : BatchState) {k k' : PrimitiveKind} (h : k' ≠ k)
    (l : List Prim) : (s.setK k l).get k' = s.get k' := by
  cases k <;> cases k' <;> first | rfl | exact absurd rfl h

theorem totalLen_def (s : BatchState) :
    s.totalLen = (s.get .shadow).length + (s.get .quad).length +
      (s.get .path).length + (s.get .underline).length +
      (s.get .monochromeSprite).length + (s.get .polychromeSprite).length +
      (s.get .surface).length := rfl

theorem mem_allOrders_iff (s : BatchState) (o : Nat) :
    o ∈ s.allOrders ↔ ∃ k, o ∈ ordersOf (s.get k) := by
  unfold BatchState.allOrders
  simp only [List.mem_append]
  constructor
  · rintro ((((((h | h) | h) | h) | h) | h) | h)
    exacts [⟨.shadow, h⟩, ⟨.quad, h⟩, ⟨.path, h⟩, ⟨.underline, h⟩,
      ⟨.monochromeSprite, h⟩, ⟨.polychromeSprite, h⟩, ⟨.surface, h⟩]
  · rintro ⟨k, hk⟩
    cases k <;> simp [BatchState.get] at hk <;> tauto

theorem peek_eq_of_mem {s : BatchState} {z : Option Nat × PrimitiveKind}
    (hz : z ∈ peeks s) : z.1 = (s.get z.2).head?.map Prim.order := by
  unfold peeks at hz
  simp only [List.mem_map] at hz
  obtain ⟨k, _, heq⟩ := hz
  rw [← heq]

theorem peek_mem (s : BatchState) (k : PrimitiveKind) :
    ((s.get k).head?.map Prim.order, k) ∈ peeks s := by
  unfold peeks
  exact List.mem_map.mpr ⟨k, by cases k <;> simp [allKinds], rfl⟩

theorem exists_nonempty_of_totalLen_pos {s : BatchState} (h : 0 < s.totalLen) :
    ∃ k, s.get k ≠ [] := by
  by_contra hc
  push_neg at hc
  have h1 := hc .shadow
  have h2 := hc .quad
  have h3 := hc .path
  have h4 := hc .underline
  have h5 := hc .monochromeSprite
  have h6 := hc .polychromeSprite
  have h7 := hc .surface
  simp only [BatchState.get] at h1 h2 h3 h4 h5 h6 h7
  unfold BatchState.totalLen at h
  rw [h1, h2, h3, h4, h5, h6, h7] at h
  simp at h

/-- When primitives remain and every stored order is below the u32::MAX
sentinel, the iterator produces another batch. -/
theorem batchNext_some (s : BatchState) (hne : 0 < s.totalLen)
    (hlt : ∀ o ∈ s.allOrders, o < U32_MAX) :
    ∃ r, batchNext s = some r := by
  obtain ⟨k0, hk0⟩ := exists_nonempty_of_totalLen_pos hne
  obtain ⟨p0, rest0, hget0⟩ := List.exists_cons_of_ne_nil hk0
  have hp0 : p0.order ∈ s.allOrders :=
    (mem_allOrders_iff s p0.order).mpr ⟨k0, by simp [ordersOf, hget0]⟩
  have hp0lt := hlt p0.order hp0
  have hperm : (List.insertionSort pairLe (peeks s)).Perm (peeks s) :=
    List.perm_insertionSort pairLe (peeks s)
  have hsorted : List.Pairwise pairLe (List.insertionSort pairLe (peeks s)) :=
    List.sorted_insertionSort pairLe (peeks s)
  have hlen : (List.insertionSort pairLe (peeks s)).length = 7 := by
    rw [hperm.length_eq]
    unfold peeks allKinds
    rfl
  -- the sorted peeks start with two elements
  have hnnil : List.insertionSort pairLe (peeks s) ≠ [] := by
    intro hnil
    rw [hnil] at hlen
    simp at hlen
  obtain ⟨a, t1, hsort1⟩ := List.exists_cons_of_ne_nil hnnil
  obtain ⟨b, t2, hsort2⟩ :
      ∃ b t2, t1 = b :: t2 := by
    cases t1 with
    | nil => rw [hsort1] at hlen; simp at hlen
    | cons b t2 => exact ⟨b, t2, rfl⟩
  -- the minimal peek is not exhausted
  have hz0 : ((some p0.order : Option Nat), k0) ∈ peeks s := by
    have := peek_mem s k0
    rw [hget0] at this
    simpa using this
  have hamin : ∀ z ∈ peeks s, pairLe a z := by
    intro z hz
    rcases hperm.mem_iff.mpr hz with hz'
    rw [hsort1] at hz' hsorted
    rcases List.mem_cons.mp hz' with rfl | hz''
    · rcases pairLe_total z z with h | h <;> exact h
    · exact (List.pairwise_cons.mp hsorted).1 z hz''
  have ha1 : a.1.isSome := by
    by_contra hnone
    have hle := hamin _ hz0
    rcases Option.not_isSome_iff_eq_none.mp hnone with hn
    simp only [pairLe, lexLt, pairKey, hn, Option.getD_none, Option.getD_some,
      Prod.ext_iff] at hle
    omega
  obtain ⟨av, hav⟩ := Option.isSome_iff_exists.mp ha1
  -- the selected kind has a primitive to consume
  have hamem : a ∈ peeks s := hperm.mem_iff.mp (by rw [hsort1]; exact List.mem_cons_self a _)
  have hhead : (s.get a.2).head?.map Prim.order = some av := by
    rw [← peek_eq_of_mem hamem, hav]
  have hne2 : s.get a.2 ≠ [] := by
    intro hnil
    rw [hnil] at hhead
    simp at hhead
  obtain ⟨p, rest, hget⟩ := List.exists_cons_of_ne_nil hne2
  refine ⟨?_, ?_⟩
  · exact (⟨a.2, p.texture_id, p :: rest.takeWhile fun q =>
        decide (lexLt (q.order, a.2.idx) (b.1.getD U32_MAX, b.2.idx)) &&
        (!a.2.isSprite || q.texture_id == p.texture_id)⟩,
      s.setK a.2 (rest.dropWhile fun q =>
        decide (lexLt (q.order, a.2.idx) (b.1.getD U32_MAX, b.2.idx)) &&
        (!a.2.isSprite || q.texture_id == p.texture_id)))
  · unfold batchNext
    rw [hsort1, hsort2]
    obtain ⟨a1, a2⟩ := a
    cases a1 with
    | none => simp at hav
    | some av' =>
      simp only []
      rw [hget]

/-- Every emitted batch is a non-empty leading run of the selected kind's
remaining primitives, and the other kinds are untouched. -/
theorem batchNext_decompose {s : BatchState} {b : Batch} {s1 : BatchState}
    (h : batchNext s = some (b, s1)) :
    b.prims ≠ [] ∧
    s.get b.kind = b.prims ++ s1.get b.kind ∧
    (∀ k, k ≠ b.kind → s1.get k = s.get k) := by
  unfold batchNext at h
  split at h
  · next val k second tail heqsort =>
    cases hget : s.get k with
    | nil => rw [hget] at h; exact absurd h (by simp)
    | cons p rest =>
      rw [hget] at h
      simp only [Option.some_inj, Prod.mk.injEq] at h
      obtain ⟨hb, hs1⟩ := h
      subst hb
      subst hs1
      refine ⟨by simp, ?_, ?_⟩
      · rw [get_setK_self, hget, List.cons_append, List.takeWhile_append_dropWhile]
      · intro k' hk'
        exact get_setK_ne s hk' _
  · exact absurd h (by simp)

theorem totalLen_decompose {s s1 : BatchState} {b : Batch}
    (h2 : s.get b.kind = b.prims ++ s1.get b.kind)
    (h3 : ∀ k, k ≠ b.kind → s1.get k = s.get k) :
    s1.totalLen + b.prims.length = s.totalLen := by
  have e2 := congrArg List.length h2
  rw [List.length_append] at e2
  rw [totalLen_def s, totalLen_def s1]
  cases hbk : b.kind
  all_goals rw [hbk] at e2 h3
  case shadow =>
    rw [h3 .quad (by decide), h3 .path (by decide), h3 .underline (by decide),
      h3 .monochromeSprite (by decide), h3 .polychromeSprite (by decide),
      h3 .surface (by decide)]
    omega
  case quad =>
    rw [h3 .shadow (by decide), h3 .path (by decide), h3 .underline (by decide),
      h3 .monochromeSprite (by decide), h3 .polychromeSprite (by decide),
      h3 .surface (by decide)]
    omega
  case path =>
    rw [h3 .shadow (by decide), h3 .quad (by decide), h3 .underline (by decide),
      h3 .monochromeSprite (by decide), h3 .polychromeSprite (by decide),
      h3 .surface (by decide)]
    omega
  case underline =>
    rw [h3 .shadow (by decide), h3 .quad (by decide), h3 .path (by decide),
      h3 .monochromeSprite (by decide), h3 .polychromeSprite (by decide),
      h3 .surface (by decide)]
    omega
  case monochromeSprite =>
    rw [h3 .shadow (by decide), h3 .quad (by decide), h3 .path (by decide),
      h3 .underline (by decide), h3 .polychromeSprite (by decide),
      h3 .surface (by decide)]
    omega
  case polychromeSprite =>
    rw [h3 .shadow (by decide), h3 .quad (by decide), h3 .path (by decide),
      h3 .underline (by decide), h3 .monochromeSprite (by decide),
      h3 .surface (by decide)]
    omega
  case surface =>
    rw [h3 .shadow (by decide), h3 .quad (by decide), h3 .path (by decide),
      h3 .underline (by decide), h3 .monochromeSprite (by decide),
      h3 .polychromeSprite (by decide)]
    omega

theorem batchNext_allOrders_mono {s s1 : BatchState} {b : Batch}
    (h2 : s.get b.kind = b.prims ++ s1.get b.kind)
    (h3 : ∀ k, k ≠ b.kind → s1.get k = s.get k) :
    ∀ o ∈ s1.allOrders, o ∈ s.allOrders := by
  intro o ho
  obtain ⟨k, hk⟩ := (mem_allOrders_iff s1 o).mp ho
  by_cases hbk : k = b.kind
  · subst hbk
    refine (mem_allOrders_iff s o).mpr ⟨b.kind, ?_⟩
    rw [h2]
    unfold ordersOf
    rw [List.map_append]
    exact List.mem_append_right _ hk
  · exact (mem_allOrders_iff s o).mpr ⟨k, by rw [← h3 k hbk]; exact hk⟩

def batchPrimsOfKind (k : PrimitiveKind) (bs : List Batch) : List Prim :=
  ((bs.filter fun b => decide (b.kind = k)).map Batch.prims).flatten

theorem batchPrimsOfKind_cons (k : PrimitiveKind) (b : Batch) (bs : List Batch) :
    batchPrimsOfKind k (b :: bs) =
      (if b.kind = k then b.prims else []) ++ batchPrimsOfKind k bs := by
  unfold batchPrimsOfKind
  by_cases h : b.kind = k <;> simp [List.filter_cons, h]

theorem batchesAux_complete (fuel : Nat) :
    ∀ (s : BatchState), s.totalLen ≤ fuel →
    (∀ o ∈ s.allOrders, o < U32_MAX) →
    ∀ k, batchPrimsOfKind k (batchesAux fuel s) = s.get k := by
  induction fuel with
  | zero =>
    intro s hfuel _ k
    have h0 : s.totalLen = 0 := Nat.le_zero.mp hfuel
    rw [totalLen_def] at h0
    have hk : (s.get k).length = 0 := by cases k <;> omega
    rw [List.length_eq_zero] at hk
    rw [hk]
    rfl
  | succ n ih =>
    intro s hfuel hlt k
    cases hbn : batchNext s with
    | none =>
      have h0 : s.totalLen = 0 := by
        by_contra hpos
        obtain ⟨r, hr⟩ := batchNext_some s (Nat.pos_of_ne_zero hpos) hlt
        rw [hbn] at hr
        cases hr
      rw [totalLen_def] at h0
      have hk : (s.get k).length = 0 := by cases k <;> omega
      rw [List.length_eq_zero] at hk
      rw [hk]
      simp [batchesAux, hbn]
      rfl
    | some r =>
      obtain ⟨b, s1⟩ := r
      obtain ⟨hne, h2, h3⟩ := batchNext_decompose hbn
      have htl := totalLen_decompose h2 h3
      have hlenpos : 0 < b.prims.length := List.length_pos.mpr hne
      have hfuel1 : s1.totalLen ≤ n := by omega
      have hlt1 : ∀ o ∈ s1.allOrders, o < U32_MAX :=
        fun o ho => hlt o (batchNext_allOrders_mono h2 h3 o ho)
      have ihk := ih s1 hfuel1 hlt1
      simp only [batchesAux, hbn]
      rw [batchPrimsOfKind_cons]
      by_cases hk : b.kind = k
      · rw [if_pos hk, ihk k]
        rw [← hk, ← h2]
      · rw [if_neg hk, ihk k, h3 k (fun he => hk he.symm)]
        simp

/-- C9: provided every stored order is strictly below u32::MAX, the sentinel
the iterator substitutes for an exhausted kind when selecting the minimal
(order, kind) pair, a complete batches() traversal yields every stored
primitive exactly once: for each kind, concatenating the slices of that
kind's batches in traversal order reproduces that kind's whole buffer. -/
theorem batches_complete (s : Scene)
    (hlt : ∀ o ∈ s.batchState.allOrders, o < U32_MAX) (k : PrimitiveKind) :
    batchPrimsOfKind k s.batches = s.batchState.get k :=
  batchesAux_complete s.batchState.totalLen s.batchState le_rfl hlt k

/-- Concrete scene used by the C9 witness: one quad then one shadow. -/
def c9scene : Scene :=
  ((Scene.empty.insert_quad ⟨⟨0, 0, 10, 10⟩, ⟨0, 0, 50, 50⟩, 0, 0, false, 1⟩
      none []).2.insert_shadow ⟨⟨0, 0, 10, 10⟩, ⟨0, 0, 50, 50⟩, 0, 0, false, 2⟩
      none []).2

/-- Witness for C9 on a concrete two-primitive scene. -/
theorem batches_complete_witness :
    batchPrimsOfKind .quad c9scene.batches = c9scene.batchState.get .quad :=
  batches_complete c9scene (by decide) .quad

theorem batchNext_sprite_texture {s : BatchState} {b : Batch} {s1 : BatchState}
    (h : batchNext s = some (b, s1)) (hk : b.kind.isSprite = true) :
    ∀ q ∈ b.prims, q.texture_id = b.texture_id := by
  unfold batchNext at h
  split at h
  · next val k second tail heqsort =>
    cases hget : s.get k with
    | nil => rw [hget] at h; exact absurd h (by simp)
    | cons p rest =>
      rw [hget] at h
      simp only [Option.some_inj, Prod.mk.injEq] at h
      obtain ⟨hb, _⟩ := h
      subst hb
      simp only [] at hk ⊢
      intro q hq
      rcases List.mem_cons.mp hq with rfl | hq2
      · rfl
      · have hkeep := List.mem_takeWhile_imp hq2
        rw [Bool.and_eq_true] at hkeep
        have := hkeep.2
        rw [hk] at this
        simpa using this
  · exact absurd h (by simp)

theorem batchesAux_sprite_texture : ∀ (fuel : Nat) (s : BatchState) (b : Batch),
    b ∈ batchesAux fuel s → b.kind.isSprite = true →
    ∀ q ∈ b.prims, q.texture_id = b.texture_id := by
  intro fuel
  induction fuel with
  | zero =>
    intro s b hb
    simp [batchesAux] at hb
  | succ n ih =>
    intro s b hb hk
    simp only [batchesAux] at hb
    cases hbn : batchNext s with
    | none => rw [hbn] at hb; simp at hb
    | some r =>
      rw [hbn] at hb
      obtain ⟨b1, s1⟩ := r
      rcases List.mem_cons.mp hb with rfl | hb2
      · exact batchNext_sprite_texture hbn hk
      · exact ih s1 b hb2 hk

/-- Concrete scene used by the C8 witness: monochrome sprites on textures
7, 7, 8 with adjacent orders 0, 1, 2. -/
def c8scene : Scene :=
  (((Scene.empty.insert_monochrome_sprite
      ⟨⟨0, 0, 10, 10⟩, ⟨0, 0, 50, 50⟩, 0, 7, false, 1⟩ none []).2.insert_monochrome_sprite
      ⟨⟨0, 0, 10, 10⟩, ⟨0, 0, 50, 50⟩, 0, 7, false, 2⟩ none []).2.insert_monochrome_sprite
      ⟨⟨0, 0, 10, 10⟩, ⟨0, 0, 50, 50⟩, 0, 8, false, 3⟩ none []).2

/-- C8: every monochrome or polychrome sprite batch is texture-homogeneous:
each sprite in the emitted slice carries exactly the batch's texture_id, so
any two sprites of the same batch share one texture id; consequently two
sprites with different texture ids are always yielded in two separate
batches, never combined into one, even when adjacent in the order-sorted
store. -/
theorem sprite_batches_texture_homogeneous (s : Scene) (b : Batch)
    (hb : b ∈ s.batches) (hk : b.kind.isSprite = true) :
    (∀ q ∈ b.prims, q.texture_id = b.texture_id) ∧
    (∀ q ∈ b.prims, ∀ q2 ∈ b.prims, q.texture_id = q2.texture_id) := by
  have h := batchesAux_sprite_texture s.batchState.totalLen s.batchState b hb hk
  exact ⟨h, fun q hq q2 hq2 => (h q hq).trans (h q2 hq2).symm⟩

/-- Witness for C8: a scene holding monochrome sprites on textures 7, 7, 8
with adjacent orders produces a first batch of texture 7, and applying the
theorem to one of its sprites evaluates concretely. -/
theorem sprite_batches_texture_homogeneous_witness :
    (⟨⟨0, 0, 10, 10⟩, ⟨0, 0, 50, 50⟩, 0, 7, false, 1⟩ : Prim).texture_id = 7 :=
  (sprite_batches_texture_homogeneous c8scene
    ⟨.monochromeSprite, 7,
      [⟨⟨0, 0, 10, 10⟩, ⟨0, 0, 50, 50⟩, 0, 7, false, 1⟩,
       ⟨⟨0, 0, 10, 10⟩, ⟨0, 0, 50, 50⟩, 1, 7, false, 2⟩]⟩
    (by decide) (by decide)).1
    ⟨⟨0, 0, 10, 10⟩, ⟨0, 0, 50, 50⟩, 0, 7, false, 1⟩ (by decide)

/-! Global ordering of the batch stream. -/

theorem pairLe_fst_le {a b : Option Nat × PrimitiveKind} (h : pairLe a b) :
    (pairKey a).1 ≤ (pairKey b).1 := by
  simp only [pairLe, lexLt, Prod.ext_iff] at h
  omega

theorem lexLt_fst_le {a b : Nat × Nat} (h : lexLt a b) : a.1 ≤ b.1 := by
  simp only [lexLt] at h
  omega

theorem nodup_allOrders_ne {s : BatchState} (hnd : s.allOrders.Nodup)
    {k k2 : PrimitiveKind} (hkk : k ≠ k2) {o : Nat}
    (ho : o ∈ ordersOf (s.get k)) (ho2 : o ∈ ordersOf (s.get k2)) : False := by
  have hcount := List.nodup_iff_count_le_one.mp hnd o
  unfold BatchState.allOrders at hcount
  simp only [List.count_append] at hcount
  have h1 : 0 < List.count o (ordersOf (s.get k)) := List.count_pos_iff.mpr ho
  have h2 : 0 < List.count o (ordersOf (s.get k2)) := List.count_pos_iff.mpr ho2
  cases k <;> cases k2 <;>
    first
      | exact hkk rfl
      | (simp only [BatchState.get] at h1 h2; omega)

theorem nodup_allOrders_segment {s : BatchState} (hnd : s.allOrders.Nodup)
    (k : PrimitiveKind) : (ordersOf (s.get k)).Nodup := by
  rw [List.nodup_iff_count_le_one] at hnd ⊢
  intro a
  have ha := hnd a
  unfold BatchState.allOrders at ha
  simp only [List.count_append] at ha
  cases k <;> simp only [BatchState.get] <;> omega

theorem pairwise_orders_take {p : Prim} {rest : List Prim} (keep : Prim → Bool)
    (hsk : List.Pairwise (· < ·) (ordersOf (p :: rest))) :
    List.Pairwise (· < ·) (ordersOf (p :: rest.takeWhile keep)) :=
  List.Pairwise.sublist
    (List.Sublist.map Prim.order
      (List.cons_sublist_cons.mpr (List.takeWhile_sublist keep))) hsk

theorem orders_split_take_drop (p : Prim) (rest : List Prim) (keep : Prim → Bool) :
    ordersOf (p :: rest) =
      ordersOf (p :: rest.takeWhile keep) ++ ordersOf (rest.dropWhile keep) := by
  unfold ordersOf
  rw [← List.map_append, List.cons_append, List.takeWhile_append_dropWhile]

theorem orders_take_lt_drop {p : Prim} {rest : List Prim} (keep : Prim → Bool)
    (hsk : List.Pairwise (· < ·) (ordersOf (p :: rest))) :
    ∀ o ∈ ordersOf (p :: rest.takeWhile keep),
    ∀ o2 ∈ ordersOf (rest.dropWhile keep), o < o2 := by
  rw [orders_split_take_drop p rest keep] at hsk
  exact (List.pairwise_append.mp hsk).2.2

/-- Step lemma for the ordered-merge property: under per-kind sortedness and
global order uniqueness, the emitted batch is strictly sorted and all its
orders precede every order still stored. -/
theorem batchNext_ordered {s : BatchState} {b : Batch} {s1 : BatchState}
    (h : batchNext s = some (b, s1))
    (hsorted : ∀ k, List.Pairwise (· < ·) (ordersOf (s.get k)))
    (hnd : s.allOrders.Nodup) :
    List.Pairwise (· < ·) (ordersOf b.prims) ∧
    (∀ o ∈ ordersOf b.prims, ∀ o2 ∈ s1.allOrders, o < o2) := by
  unfold batchNext at h
  split at h
  · next val k second tail heqsort =>
    cases hget : s.get k with
    | nil => rw [hget] at h; exact absurd h (by simp)
    | cons p rest =>
      rw [hget] at h
      simp only [Option.some_inj, Prod.mk.injEq] at h
      obtain ⟨hb, hs1⟩ := h
      subst hb
      subst hs1
      simp only []
      have hsk := hsorted k
      rw [hget] at hsk
      refine ⟨pairwise_orders_take _ hsk, ?_⟩
      -- facts about the two smallest peeks
      have hperm := List.perm_insertionSort pairLe (peeks s)
      rw [heqsort] at hperm
      have hpairs := List.sorted_insertionSort pairLe (peeks s)
      rw [heqsort] at hpairs
      have hfirstmem : ((some val : Option Nat), k) ∈ peeks s :=
        hperm.subset (List.mem_cons_self _ _)
      have hval : val = p.order := by
        have := peek_eq_of_mem hfirstmem
        rw [hget] at this
        simpa using this
      have hfirst_le_second : pairLe (some val, k) second :=
        (List.pairwise_cons.mp hpairs).1 second (List.mem_cons_self _ _)
      -- every batch order is at most the boundary order
      have hbound : ∀ o ∈ ordersOf (p :: rest.takeWhile fun q =>
            decide (lexLt (q.order, k.idx) (second.1.getD U32_MAX, second.2.idx)) &&
            (!k.isSprite || q.texture_id == p.texture_id)),
          o ≤ second.1.getD U32_MAX := by
        intro o ho
        rcases List.mem_cons.mp ho with rfl | ho2
        · have := pairLe_fst_le hfirst_le_second
          simp only [pairKey, Option.getD_some] at this
          omega
        · obtain ⟨q, hq, rfl⟩ := List.mem_map.mp ho2
          have hkeep := List.mem_takeWhile_imp hq
          rw [Bool.and_eq_true, decide_eq_true_eq] at hkeep
          exact lexLt_fst_le hkeep.1
      intro o ho o2 ho2
      obtain ⟨k2, hk2⟩ := (mem_allOrders_iff _ o2).mp ho2
      by_cases hkk : k2 = k
      · subst hkk
        rw [get_setK_self] at hk2
        exact orders_take_lt_drop _ hsk o ho o2 hk2
      · rw [get_setK_ne s hkk] at hk2
        -- peek of the other kind
        have hk2ne : s.get k2 ≠ [] := by
          intro hnil
          rw [hnil] at hk2
          simp [ordersOf] at hk2
        obtain ⟨p2, rest2, hget2⟩ := List.exists_cons_of_ne_nil hk2ne
        have hz2mem : ((some p2.order : Option Nat), k2) ∈ peeks s := by
          have := peek_mem s k2
          rw [hget2] at this
          simpa using this
        have hz2sorted := hperm.symm.subset hz2mem
        have hz2tail : ((some p2.order : Option Nat), k2) ∈ second :: tail := by
          rcases List.mem_cons.mp hz2sorted with heq | htl
          · exact absurd (congrArg Prod.snd heq) (by simpa using hkk)
          · exact htl
        have hsec_le : pairLe second (some p2.order, k2) := by
          have hp2 := (List.pairwise_cons.mp hpairs).2
          rcases List.mem_cons.mp hz2tail with heq | htl
          · rw [← heq]
            exact Or.inr rfl
          · exact (List.pairwise_cons.mp hp2).1 _ htl
        have hm1 : second.1.getD U32_MAX ≤ p2.order := by
          have := pairLe_fst_le hsec_le
          simpa [pairKey] using this
        have hp2o2 : p2.order ≤ o2 := by
          have hsk2 := hsorted k2
          rw [hget2] at hsk2 hk2
          simp only [ordersOf, List.map_cons] at hsk2 hk2
          rcases List.mem_cons.mp hk2 with h' | h'
          · omega
          · have := (List.pairwise_cons.mp hsk2).1 o2 h'
            omega
        have hne : o ≠ o2 := by
          intro heq
          subst heq
          have hoK : o ∈ ordersOf (s.get k) := by
            rw [hget]
            exact (List.Sublist.map Prim.order
              (List.cons_sublist_cons.mpr (List.takeWhile_sublist _))).subset ho
          exact nodup_allOrders_ne hnd (fun hx => hkk hx.symm) hoK hk2
        have hoB := hbound o ho
        omega
  · exact absurd h (by simp)

theorem ordersOf_append (a b : List Prim) :
    ordersOf (a ++ b) = ordersOf a ++ ordersOf b :=
  List.map_append Prim.order a b

theorem allOrders_eq_nil_of_totalLen_zero {s : BatchState} (h : s.totalLen = 0) :
    s.allOrders = [] := by
  rw [totalLen_def] at h
  simp only [BatchState.get] at h
  have h1 : s.shadows = [] := List.length_eq_zero.mp (by omega)
  have h2 : s.quads = [] := List.length_eq_zero.mp (by omega)
  have h3 : s.paths = [] := List.length_eq_zero.mp (by omega)
  have h4 : s.underlines = [] := List.length_eq_zero.mp (by omega)
  have h5 : s.monochrome_sprites = [] := List.length_eq_zero.mp (by omega)
  have h6 : s.polychrome_sprites = [] := List.length_eq_zero.mp (by omega)
  have h7 : s.surfaces = [] := List.length_eq_zero.mp (by omega)
  unfold BatchState.allOrders
  rw [h1, h2, h3, h4, h5, h6, h7]
  rfl

theorem perm_pull_middle (P : List (List Nat)) (B X : List Nat) :
    (P.foldr (· ++ ·) (B ++ X)).Perm (B ++ P.foldr (· ++ ·) X) := by
  induction P with
  | nil => exact List.Perm.refl _
  | cons A P ih =>
    simp only [List.foldr_cons]
    exact (List.Perm.append_left A ih).trans (List.perm_append_comm_assoc A B _)

theorem allOrders_perm_decompose {s s1 : BatchState} {b : Batch}
    (h2 : s.get b.kind = b.prims ++ s1.get b.kind)
    (h3 : ∀ k, k ≠ b.kind → s1.get k = s.get k) :
    s.allOrders.Perm (ordersOf b.prims ++ s1.allOrders) := by
  cases hbk : b.kind
  all_goals rw [hbk] at h2 h3
  all_goals simp only [BatchState.get] at h2
  case shadow =>
    have eq2 := h3 .quad (by decide)
    have eq3 := h3 .path (by decide)
    have eq4 := h3 .underline (by decide)
    have eq5 := h3 .monochromeSprite (by decide)
    have eq6 := h3 .polychromeSprite (by decide)
    have eq7 := h3 .surface (by decide)
    simp only [BatchState.get] at eq2 eq3 eq4 eq5 eq6 eq7
    unfold BatchState.allOrders
    rw [h2, eq2, eq3, eq4, eq5, eq6, eq7]
    simp only [ordersOf_append, List.append_assoc]
    exact perm_pull_middle [] _ _
  case quad =>
    have eq1 := h3 .shadow (by decide)
    have eq3 := h3 .path (by decide)
    have eq4 := h3 .underline (by decide)
    have eq5 := h3 .monochromeSprite (by decide)
    have eq6 := h3 .polychromeSprite (by decide)
    have eq7 := h3 .surface (by decide)
    simp only [BatchState.get] at eq1 eq3 eq4 eq5 eq6 eq7
    unfold BatchState.allOrders
    rw [h2, eq1, eq3, eq4, eq5, eq6, eq7]
    simp only [ordersOf_append, List.append_assoc]
    exact perm_pull_middle [ordersOf s.shadows] _ _
  case path =>
    have eq1 := h3 .shadow (by decide)
    have eq2 := h3 .quad (by decide)
    have eq4 := h3 .underline (by decide)
    have eq5 := h3 .monochromeSprite (by decide)
    have eq6 := h3 .polychromeSprite (by decide)
    have eq7 := h3 .surface (by decide)
    simp only [BatchState.get] at eq1 eq2 eq4 eq5 eq6 eq7
    unfold BatchState.allOrders
    rw [h2, eq1, eq2, eq4, eq5, eq6, eq7]
    simp only [ordersOf_append, List.append_assoc]
    exact perm_pull_middle [ordersOf s.shadows, ordersOf s.quads] _ _
  case underline =>
    have eq1 := h3 .shadow (by decide)
    have eq2 := h3 .quad (by decide)
    have eq3 := h3 .path (by decide)
    have eq5 := h3 .monochromeSprite (by decide)
    have eq6 := h3 .polychromeSprite (by decide)
    have eq7 := h3 .surface (by decide)
    simp only [BatchState.get] at eq1 eq2 eq3 eq5 eq6 eq7
    unfold BatchState.allOrders
    rw [h2, eq1, eq2, eq3, eq5, eq6, eq7]
    simp only [ordersOf_append, List.append_assoc]
    exact perm_pull_middle [ordersOf s.shadows, ordersOf s.quads, ordersOf s.paths] _ _
  case monochromeSprite =>
    have eq1 := h3 .shadow (by decide)
    have eq2 := h3 .quad (by decide)
    have eq3 := h3 .path (by decide)
    have eq4 := h3 .underline (by decide)
    have eq6 := h3 .polychromeSprite (by decide)
    have eq7 := h3 .surface (by decide)
    simp only [BatchState.get] at eq1 eq2 eq3 eq4 eq6 eq7
    unfold BatchState.allOrders
    rw [h2, eq1, eq2, eq3, eq4, eq6, eq7]
    simp only [ordersOf_append, List.append_assoc]
    exact perm_pull_middle
      [ordersOf s.shadows, ordersOf s.quads, ordersOf s.paths, ordersOf s.underlines] _ _
  case polychromeSprite =>
    have eq1 := h3 .shadow (by decide)
    have eq2 := h3 .quad (by decide)
    have eq3 := h3 .path (by decide)
    have eq4 := h3 .underline (by decide)
    have eq5 := h3 .monochromeSprite (by decide)
    have eq7 := h3 .surface (by decide)
    simp only [BatchState.get] at eq1 eq2 eq3 eq4 eq5 eq7
    unfold BatchState.allOrders
    rw [h2, eq1, eq2, eq3, eq4, eq5, eq7]
    simp only [ordersOf_append, List.append_assoc]
    exact perm_pull_middle
      [ordersOf s.shadows, ordersOf s.quads, ordersOf s.paths, ordersOf s.underlines,
       ordersOf s.monochrome_sprites] _ _
  case surface =>
    have eq1 := h3 .shadow (by decide)
    have eq2 := h3 .quad (by decide)
    have eq3 := h3 .path (by decide)
    have eq4 := h3 .underline (by decide)
    have eq5 := h3 .monochromeSprite (by decide)
    have eq6 := h3 .polychromeSprite (by decide)
    simp only [BatchState.get] at eq1 eq2 eq3 eq4 eq5 eq6
    unfold BatchState.allOrders
    rw [h2, eq1, eq2, eq3, eq4, eq5, eq6]
    simp only [ordersOf_append, List.append_assoc]
    exact perm_pull_middle
      [ordersOf s.shadows, ordersOf s.quads, ordersOf s.paths, ordersOf s.underlines,
       ordersOf s.monochrome_sprites, ordersOf s.polychrome_sprites] _ _

theorem batchOrders_cons (b : Batch) (bs : List Batch) :
    batchOrders (b :: bs) = ordersOf b.prims ++ batchOrders bs := by
  simp [batchOrders]

theorem batchesAux_ordered (fuel : Nat) :
    ∀ (s : BatchState), s.totalLen ≤ fuel →
    (∀ k, List.Pairwise (· < ·) (ordersOf (s.get k))) →
    s.allOrders.Nodup →
    (∀ o ∈ s.allOrders, o < U32_MAX) →
    List.Pairwise (· < ·) (batchOrders (batchesAux fuel s)) ∧
    (batchOrders (batchesAux fuel s)).Perm s.allOrders := by
  induction fuel with
  | zero =>
    intro s hfuel _ _ _
    have h0 := allOrders_eq_nil_of_totalLen_zero (Nat.le_zero.mp hfuel)
    rw [h0]
    exact ⟨List.Pairwise.nil, List.Perm.refl _⟩
  | succ n ih =>
    intro s hfuel hsorted hnd hlt
    cases hbn : batchNext s with
    | none =>
      have h0 : s.totalLen = 0 := by
        by_contra hpos
        obtain ⟨r, hr⟩ := batchNext_some s (Nat.pos_of_ne_zero hpos) hlt
        rw [hbn] at hr
        cases hr
      have hnil := allOrders_eq_nil_of_totalLen_zero h0
      simp only [batchesAux, hbn]
      rw [hnil]
      exact ⟨List.Pairwise.nil, List.Perm.refl _⟩
    | some r =>
      obtain ⟨b, s1⟩ := r
      obtain ⟨hne, h2, h3⟩ := batchNext_decompose hbn
      have hstep := batchNext_ordered hbn hsorted hnd
      have hperm := allOrders_perm_decompose h2 h3
      have hsorted1 : ∀ k, List.Pairwise (· < ·) (ordersOf (s1.get k)) := by
        intro k
        by_cases hk : k = b.kind
        · subst hk
          have hx := hsorted b.kind
          rw [h2, ordersOf_append] at hx
          exact (List.pairwise_append.mp hx).2.1
        · rw [h3 k hk]
          exact hsorted k
      have hnd1 : s1.allOrders.Nodup := by
        have hx := hperm.nodup_iff.mp hnd
        exact (List.nodup_append.mp hx).2.1
      have hlt1 : ∀ o ∈ s1.allOrders, o < U32_MAX :=
        fun o ho => hlt o (batchNext_allOrders_mono h2 h3 o ho)
      have htl := totalLen_decompose h2 h3
      have hlen : 0 < b.prims.length := List.length_pos.mpr hne
      have hrec := ih s1 (by omega) hsorted1 hnd1 hlt1
      simp only [batchesAux, hbn]
      rw [batchOrders_cons]
      constructor
      · rw [List.pairwise_append]
        exact ⟨hstep.1, hrec.1, fun o ho o2 ho2 => hstep.2 o ho o2 (hrec.2.subset ho2)⟩
      · exact (List.Perm.append_left _ hrec.2).trans hperm.symm

instance : IsTotal Prim fun a b => a.order ≤ b.order :=
  ⟨fun a b => Nat.le_total a.order b.order⟩

instance : IsTrans Prim fun a b => a.order ≤ b.order :=
  ⟨fun _ _ _ hab hbc => Nat.le_trans hab hbc⟩

theorem finish_sorted {s : Scene} {pt : Point} {s' : Scene}
    (hf : s.finish pt = some s') (k : PrimitiveKind) :
    List.Pairwise (fun a b : Prim => a.order ≤ b.order) (s'.batchState.get k) := by
  unfold Scene.finish at hf
  simp only [bind, Option.bind_eq_some, Option.some_inj] at hf
  obtain ⟨x1, h1, x2, h2, x3, h3, x4, h4, x5, h5, x6, h6, x7, h7, hfin⟩ := hf
  subst hfin
  cases k <;>
    exact List.sorted_insertionSort (fun a b : Prim => a.order ≤ b.order) _

/-- C1 counterexample: the claim as stated fails on a reachable scene. A quad
is assigned order 0; a shadow (assigned order 1) is inserted with a hover
variant whose order field is 0, which insert_shadow records without rewriting;
the pointer hits only the shadow, so finish substitutes the stale-order
variant into the store. The finished scene holds orders 0 and 0, and the
complete batches() traversal yields the order sequence [0, 0], which is not
strictly increasing and is not the sorted union of the stored orders. -/
theorem batch_orders_counterexample :
    ((let s1 := (Scene.empty.insert_quad
        ⟨⟨50, 50, 10, 10⟩, ⟨0, 0, 100, 100⟩, 0, 0, false, 1⟩ none []).2
      let s2 := (s1.insert_shadow ⟨⟨0, 0, 10, 10⟩, ⟨0, 0, 100, 100⟩, 0, 0, false, 2⟩
        (some ⟨⟨0, 0, 10, 10⟩, ⟨0, 0, 100, 100⟩, 0, 0, false, 3⟩) []).2
      (s2.finish ⟨5, 5⟩).map fun s => batchOrders s.batches) = some [0, 0]) ∧
    ¬ List.Pairwise (· < ·) [0, 0] := by
  decide

/-- C1 (amended): on every scene finish completes on, each kind's primitive
buffer is sorted ascending by order; and, provided the stored orders are
pairwise distinct and below the u32::MAX sentinel - which the spatial-index
counter guarantees for the base primitives but substituted hover variants can
violate, since insert_shadow records them without rewriting their order - the
orders of the primitives yielded by one complete batches() traversal form a
strictly increasing sequence that is a permutation of, hence as a sorted
sequence equal to, the sorted union of the orders of all seven buffers. -/
theorem finish_sorts_and_batches_ordered (s : Scene) (pt : Point) (s' : Scene)
    (hf : s.finish pt = some s')
    (hnd : s'.batchState.allOrders.Nodup)
    (hlt : ∀ o ∈ s'.batchState.allOrders, o < U32_MAX) :
    (∀ k, List.Pairwise (fun a b : Prim => a.order ≤ b.order) (s'.batchState.get k)) ∧
    List.Pairwise (· < ·) (batchOrders s'.batches) ∧
    (batchOrders s'.batches).Perm s'.batchState.allOrders := by
  have hsorted := fun k => finish_sorted hf k
  have hstrict : ∀ k, List.Pairwise (· < ·) (ordersOf (s'.batchState.get k)) := by
    intro k
    have h1 : List.Pairwise (· ≤ ·) (ordersOf (s'.batchState.get k)) :=
      List.pairwise_map.mpr (hsorted k)
    have h2 : List.Pairwise (· ≠ ·) (ordersOf (s'.batchState.get k)) :=
      nodup_allOrders_segment hnd k
    exact (h1.and h2).imp fun hab => Nat.lt_of_le_of_ne hab.1 hab.2
  unfold Scene.batches
  exact ⟨hsorted, batchesAux_ordered _ s'.batchState le_rfl hstrict hnd hlt⟩

/-- Witness for C1: finishing a concrete mixed scene (quad then shadow) and
traversing its batches yields strictly increasing orders. -/
theorem finish_sorts_and_batches_ordered_witness :
    List.Pairwise (· < ·)
      (batchOrders (((c9scene.finish ⟨200, 200⟩).getD Scene.empty).batches)) :=
  (finish_sorts_and_batches_ordered c9scene ⟨200, 200⟩
    ((c9scene.finish ⟨200, 200⟩).getD Scene.empty)
    (by decide) (by decide) (by decide)).2.1

/-- C2 counterexample: two shadows C (payload 30) and D (payload 40) are both
registered under the same named hover group with group-variant payloads 31 and
41, only C contains the pointer (5,5), and nothing occludes C; yet after
finish both stores still hold the base payloads 30 and 40: because C carries
no hover metadata (no hover variant, no occlusion flag), its hover call never
collects its group memberships, so the group is never activated and neither
primitive receives its group-variant payload, refuting the claim. -/
theorem group_hover_counterexample :
    (let g := Scene.empty.hover_group (some "grp")
     let s1 := (g.2.insert_shadow ⟨⟨0, 0, 10, 10⟩, ⟨0, 0, 100, 100⟩, 0, 0, false, 30⟩
       none [(g.1, some ⟨⟨0, 0, 10, 10⟩, ⟨0, 0, 100, 100⟩, 0, 0, false, 31⟩)]).2
     let s2 := (s1.insert_shadow ⟨⟨50, 50, 10, 10⟩, ⟨0, 0, 100, 100⟩, 0, 0, false, 40⟩
       none [(g.1, some ⟨⟨50, 50, 10, 10⟩, ⟨0, 0, 100, 100⟩, 0, 0, false, 41⟩)]).2
     let r := (s2.finish ⟨5, 5⟩).map fun s => s.shadows.primitives.map Prim.payload
     r = some [30, 40] ∧ r ≠ some [31, 41]) := by
  decide

/-- C2 (amended): when the pointed-at group member C additionally carries
hover metadata (here: a hover variant), hovering C activates the shared
group, and then both C and D receive their registered group-variant payloads
(C's group variant is applied after, and over, its hover variant), while a
primitive E registered only under a different, non-activated group keeps its
base payload. -/
theorem group_hover_applies_to_all_members (C D E hC vC vD vE : Prim)
    (g g2 : HoverGroup) (pt : Point) (hgg : g ≠ g2)
    (hcC : (C.bounds.intersect C.content_mask).degenerate = false)
    (hcD : (D.bounds.intersect D.content_mask).degenerate = false)
    (hcE : (E.bounds.intersect E.content_mask).degenerate = false)
    (hptC : (C.bounds.intersect C.content_mask).contains pt = true)
    (hptD : (D.bounds.intersect D.content_mask).contains pt = false)
    (hptE : (E.bounds.intersect E.content_mask).contains pt = false)
    (hDbg : D.background_opaque = false)
    (hEbg : E.background_opaque = false) :
    (((((Scene.empty.insert_quad C (some hC) [(g, some vC)]).2.insert_quad D none
        [(g, some vD)]).2.insert_quad E none [(g2, some vE)]).2.finish pt).map
      fun s => s.quads.primitives) =
      some [{ vC with order := 0 }, { vD with order := 1 }, { E with order := 2 }] := by
  simp [Scene.insert_quad, Scene.empty, PrimitiveSet.empty, BoundsTree.empty,
    BoundsTree.insert, PrimitiveSet.insert, hcC, hcD, hcE, Scene.finish,
    BoundsTree.find_containing, hptC, hptD, hptE, sort_desc_by_order,
    List.insertionSort, List.orderedInsert, Scene.hover_walk, Scene.dispatch_hover,
    PrimitiveSet.hover, lookupKV, insertKV, insertSet, extendSet,
    PrimitiveSet.hover_groups, PrimitiveSet.hover_groups_one, hgg, Ne.symm hgg,
    hDbg, hEbg, sort_by_order]

/-- Witness for the amended C2 at a concrete instance. -/
theorem group_hover_applies_to_all_members_witness :
    (((((Scene.empty.insert_quad ⟨⟨0, 0, 10, 10⟩, ⟨0, 0, 100, 100⟩, 0, 0, false, 50⟩
          (some ⟨⟨0, 0, 10, 10⟩, ⟨0, 0, 100, 100⟩, 0, 0, false, 51⟩)
          [(0, some ⟨⟨0, 0, 10, 10⟩, ⟨0, 0, 100, 100⟩, 0, 0, false, 52⟩)]).2.insert_quad
        ⟨⟨50, 50, 10, 10⟩, ⟨0, 0, 100, 100⟩, 0, 0, false, 60⟩ none
          [(0, some ⟨⟨50, 50, 10, 10⟩, ⟨0, 0, 100, 100⟩, 0, 0, false, 61⟩)]).2.insert_quad
        ⟨⟨50, 50, 10, 10⟩, ⟨0, 0, 100, 100⟩, 0, 0, false, 70⟩ none
          [(1, some ⟨⟨50, 50, 10, 10⟩, ⟨0, 0, 100, 100⟩, 0, 0, false, 71⟩)]).2.finish
        ⟨5, 5⟩).map fun s => s.quads.primitives) =
      some [{ (⟨⟨0, 0, 10, 10⟩, ⟨0, 0, 100, 100⟩, 0, 0, false, 52⟩ : Prim) with order := 0 },
            { (⟨⟨50, 50, 10, 10⟩, ⟨0, 0, 100, 100⟩, 0, 0, false, 61⟩ : Prim) with order := 1 },
            { (⟨⟨50, 50, 10, 10⟩, ⟨0, 0, 100, 100⟩, 0, 0, false, 70⟩ : Prim) with order := 2 }] :=
  group_hover_applies_to_all_members
    ⟨⟨0, 0, 10, 10⟩, ⟨0, 0, 100, 100⟩, 0, 0, false, 50⟩
    ⟨⟨50, 50, 10, 10⟩, ⟨0, 0, 100, 100⟩, 0, 0, false, 60⟩
    ⟨⟨50, 50, 10, 10⟩, ⟨0, 0, 100, 100⟩, 0, 0, false, 70⟩
    ⟨⟨0, 0, 10, 10⟩, ⟨0, 0, 100, 100⟩, 0, 0, false, 51⟩
    ⟨⟨0, 0, 10, 10⟩, ⟨0, 0, 100, 100⟩, 0, 0, false, 52⟩
    ⟨⟨50, 50, 10, 10⟩, ⟨0, 0, 100, 100⟩, 0, 0, false, 61⟩
    ⟨⟨50, 50, 10, 10⟩, ⟨0, 0, 100, 100⟩, 0, 0, false, 71⟩
    0 1 ⟨5, 5⟩ (by decide) (by decide) (by decide) (by decide) (by decide)
    (by decide) (by decide) (by decide) (by decide)

instance : IsTotal BoundsSearchResult fun a b => b.order ≤ a.order :=
  ⟨fun a b => Nat.le_total b.order a.order⟩

instance : IsTrans BoundsSearchResult fun a b => b.order ≤ a.order :=
  ⟨fun _ _ _ hab hbc => Nat.le_trans hbc hab⟩

/-- C3: the hover walk of finish visits the hits in strictly descending order
of order (given the distinct orders the spatial index guarantees); a
primitive with no registered hover metadata reports occludes_hover = false
and changes nothing, so it never stops the walk; and in the stacked scenario
- surface A with a hover variant above quad B with a hover variant, both
containing the pointer - an occluding A has its hover variant substituted
while B's stored primitive stays the base payload, whereas with A's occlusion
flag absent B also receives its hover variant. -/
theorem hover_occlusion (hits : List BoundsSearchResult) (ps : PrimitiveSet)
    (idx : Nat) (gs : List HoverGroup) (A B hA hB : Prim) (pt : Point)
    (hcA : (A.bounds.intersect A.content_mask).degenerate = false)
    (hcB : (B.bounds.intersect B.content_mask).degenerate = false)
    (hptA : (A.bounds.intersect A.content_mask).contains pt = true)
    (hptB : (B.bounds.intersect B.content_mask).contains pt = true) :
    ((hits.map BoundsSearchResult.order).Nodup →
      List.Pairwise (· > ·)
        ((sort_desc_by_order hits).map BoundsSearchResult.order)) ∧
    (lookupKV ps.primitive_metadata idx = none → ps.hover idx gs = (false, ps, gs)) ∧
    ((((Scene.empty.insert_quad B (some hB) []).2.insert_surface A (some hA) []
        true).2.finish pt).map
        (fun s => (s.quads.primitives, s.surfaces.primitives)) =
      some ([{ B with order := 0 }], [{ hA with order := 1 }])) ∧
    ((((Scene.empty.insert_quad B (some hB) []).2.insert_surface A (some hA) []
        false).2.finish pt).map
        (fun s => (s.quads.primitives, s.surfaces.primitives)) =
      some ([{ hB with order := 0 }], [{ hA with order := 1 }])) := by
  refine ⟨?_, ?_, ?_, ?_⟩
  · intro hnd
    have hs := List.sorted_insertionSort
      (fun a b : BoundsSearchResult => b.order ≤ a.order) hits
    have hperm := List.perm_insertionSort
      (fun a b : BoundsSearchResult => b.order ≤ a.order) hits
    have hnd2 : (((List.insertionSort
        (fun a b : BoundsSearchResult => b.order ≤ a.order) hits).map
        BoundsSearchResult.order)).Nodup :=
      ((hperm.map BoundsSearchResult.order).nodup_iff).mpr hnd
    have h1 : List.Pairwise (fun a b => b ≤ a)
        ((List.insertionSort (fun a b : BoundsSearchResult => b.order ≤ a.order)
          hits).map BoundsSearchResult.order) :=
      List.pairwise_map.mpr hs
    unfold sort_desc_by_order
    exact (h1.and hnd2).imp fun hab => Nat.lt_of_le_of_ne hab.1 (Ne.symm hab.2)
  · intro h
    simp [PrimitiveSet.hover, h]
  · simp [Scene.insert_quad, Scene.insert_surface, Scene.empty, PrimitiveSet.empty,
      BoundsTree.empty, BoundsTree.insert, PrimitiveSet.insert, PrimitiveSet.len,
      hcA, hcB, Scene.finish, BoundsTree.find_containing, hptA, hptB,
      sort_desc_by_order, List.insertionSort, List.orderedInsert, Scene.hover_walk,
      Scene.dispatch_hover, PrimitiveSet.hover, lookupKV, insertKV, insertSet,
      extendSet, PrimitiveSet.hover_groups, PrimitiveSet.hover_groups_one,
      sort_by_order]
  · simp [Scene.insert_quad, Scene.insert_surface, Scene.empty, PrimitiveSet.empty,
      BoundsTree.empty, BoundsTree.insert, PrimitiveSet.insert, PrimitiveSet.len,
      hcA, hcB, Scene.finish, BoundsTree.find_containing, hptA, hptB,
      sort_desc_by_order, List.insertionSort, List.orderedInsert, Scene.hover_walk,
      Scene.dispatch_hover, PrimitiveSet.hover, lookupKV, insertKV, insertSet,
      extendSet, PrimitiveSet.hover_groups, PrimitiveSet.hover_groups_one,
      sort_by_order]

/-- Witness for C3 at a concrete instance. -/
theorem hover_occlusion_witness :
    (((Scene.empty.insert_quad ⟨⟨0, 0, 10, 10⟩, ⟨0, 0, 100, 100⟩, 0, 0, false, 10⟩
        (some ⟨⟨0, 0, 10, 10⟩, ⟨0, 0, 100, 100⟩, 0, 0, false, 11⟩) []).2.insert_surface
        ⟨⟨0, 0, 10, 10⟩, ⟨0, 0, 100, 100⟩, 0, 0, false, 20⟩
        (some ⟨⟨0, 0, 10, 10⟩, ⟨0, 0, 100, 100⟩, 0, 0, false, 21⟩) [] true).2.finish
        ⟨5, 5⟩).map (fun s => (s.quads.primitives, s.surfaces.primitives)) =
      some ([{ (⟨⟨0, 0, 10, 10⟩, ⟨0, 0, 100, 100⟩, 0, 0, false, 10⟩ : Prim) with order := 0 }],
            [{ (⟨⟨0, 0, 10, 10⟩, ⟨0, 0, 100, 100⟩, 0, 0, false, 21⟩ : Prim) with order := 1 }]) :=
  (hover_occlusion [] PrimitiveSet.empty 0 []
    ⟨⟨0, 0, 10, 10⟩, ⟨0, 0, 100, 100⟩, 0, 0, false, 20⟩
    ⟨⟨0, 0, 10, 10⟩, ⟨0, 0, 100, 100⟩, 0, 0, false, 10⟩
    ⟨⟨0, 0, 10, 10⟩, ⟨0, 0, 100, 100⟩, 0, 0, false, 21⟩
    ⟨⟨0, 0, 10, 10⟩, ⟨0, 0, 100, 100⟩, 0, 0, false, 11⟩
    ⟨5, 5⟩ (by decide) (by decide) (by decide) (by decide)).2.2.1

end SceneSpec
